import Mathlib

/-!
A shallow embedding of the UPI deep-link library (`src/core/params.ts`,
`src/core/linkers.ts`, `src/data/registry.ts`) and proofs about it.

JavaScript objects mapping field names to string values are embedded as
association lists `List (String × String)` in insertion order; assignment
`obj[k] = v` is `insertParam` (replace in place, else append), so equal keys
never occur twice, matching JS object semantics.  `undefined` is `Option`.
Thrown exceptions are `Except.error` carrying the message string.  The pieces
of the JS runtime that the source delegates to (`String.prototype.trim`,
`URLSearchParams`, `new URL`, `encodeURIComponent`) are embedded as executable
list-level functions following their WHATWG/ECMA definitions on the fragment
of inputs the library deals with.
-/

namespace UpiIntent

/-- Parameter sets: JS objects of string fields, in insertion order. -/
abbrev Params := List (String × String)

/-- First-match association-list lookup (JS property read). -/
def lookupParam (k : String) : Params → Option String
  | [] => none
  | (k', v) :: rest => if k' = k then some v else lookupParam k rest

/-- JS property assignment `obj[k] = v`: replace in place if present, else
append. -/
def insertParam (ps : Params) (k v : String) : Params :=
  match ps with
  | [] => [(k, v)]
  | (k', v') :: rest => if k' = k then (k, v) :: rest else (k', v') :: insertParam rest k v

/-- The WhiteSpace/LineTerminator set removed by ECMAScript
`String.prototype.trim`. -/
def jsWhitespaceChar (c : Char) : Bool :=
  let n := c.toNat
  (0x09 ≤ n && n ≤ 0x0D) || n = 0x20 || n = 0xA0 || n = 0x1680 ||
  (0x2000 ≤ n && n ≤ 0x200A) || n = 0x2028 || n = 0x2029 || n = 0x202F ||
  n = 0x205F || n = 0x3000 || n = 0xFEFF

/-- Drop leading and trailing JS whitespace from a character list. -/
def trimList (l : List Char) : List Char :=
  ((l.dropWhile jsWhitespaceChar).reverse.dropWhile jsWhitespaceChar).reverse

/-- ECMAScript `String.prototype.trim`. -/
def jsTrim (s : String) : String := String.mk (trimList s.data)

/-- One entry of the `VALIDATION_RULES` table of `src/core/params.ts`. -/
structure ValidationRule where
  required : Bool := false
  maxLength : Option Nat := none
  patternOk : Option (String → Bool) := none
  allowedValues : Option (List String) := none
  description : String

/-- Character class `[a-zA-Z0-9._-]` (local part of the `pa` regex). -/
def vpaLocalChar (c : Char) : Bool :=
  c.isAlphanum || c = '.' || c = '_' || c = '-'

/-- Character class `[a-zA-Z0-9.-]` (domain part of the `pa` regex). -/
def vpaDomainChar (c : Char) : Bool :=
  c.isAlphanum || c = '.' || c = '-'

/-- The regex `^[a-zA-Z0-9._-]+@[a-zA-Z0-9.-]+$` of the `pa` rule: since both
classes exclude `@`, a match is a split at the unique `@`. -/
def paPatternOk (s : String) : Bool :=
  match s.data.span (fun c => c != '@') with
  | (before, rest) =>
    match rest with
    | [] => false
    | _ :: domain =>
      !before.isEmpty && before.all vpaLocalChar &&
      !domain.isEmpty && domain.all vpaDomainChar

/-- The regex `^\d+(\.\d{1,2})?$` of the `am` rule. -/
def amPatternOk (s : String) : Bool :=
  match s.data.span Char.isDigit with
  | (intPart, rest) =>
    !intPart.isEmpty &&
    (match rest with
     | [] => true
     | c :: decimals =>
       c = '.' && decimals.all Char.isDigit &&
       decide (1 ≤ decimals.length) && decide (decimals.length ≤ 2))

/-- The regex `^[a-zA-Z0-9\-]+$` of the `tr` rule. -/
def trPatternOk (s : String) : Bool :=
  !s.data.isEmpty && s.data.all (fun c => c.isAlphanum || c = '-')

/-- A character the regex `.` matches (anything but a line terminator). -/
def dotMatchChar (c : Char) : Bool :=
  c != Char.ofNat 0x0A && c != Char.ofNat 0x0D &&
  c != Char.ofNat 0x2028 && c != Char.ofNat 0x2029

/-- The regex `^https?:\/\/.+` of the `url` rule (tested unanchored at the
end, so it only requires the prefix plus one `.`-matching character). -/
def urlPatternOk (s : String) : Bool :=
  match s.data with
  | 'h' :: 't' :: 't' :: 'p' :: rest =>
    (match rest with
     | ':' :: '/' :: '/' :: c :: _ => dotMatchChar c
     | 's' :: ':' :: '/' :: '/' :: c :: _ => dotMatchChar c
     | _ => false)
  | _ => false

/-- The regex `^\d{4}$` of the `mc` rule. -/
def mcPatternOk (s : String) : Bool :=
  decide (s.data.length = 4) && s.data.all Char.isDigit

/-- The `VALIDATION_RULES` table of `src/core/params.ts` as a lookup
function. -/
def VALIDATION_RULES (k : String) : Option ValidationRule :=
  if k = "pa" then some { required := true, maxLength := some 255, patternOk := some paPatternOk, description := "Valid VPA format (user@psp)" }
  else if k = "pn" then some { required := true, maxLength := some 99, description := "Payee name" }
  else if k = "am" then some { maxLength := some 18, patternOk := some amPatternOk, description := "Amount in INR (up to 2 decimal places)" }
  else if k = "cu" then some { allowedValues := some ["INR"], description := "Currency code (must be INR)" }
  else if k = "tr" then some { maxLength := some 35, patternOk := some trPatternOk, description := "Transaction reference (alphanumeric with hyphens)" }
  else if k = "tn" then some { maxLength := some 100, description := "Transaction note" }
  else if k = "url" then some { maxLength := some 200, patternOk := some urlPatternOk, description := "Valid HTTP/HTTPS URL" }
  else if k = "mode" then some { maxLength := some 20, description := "Transaction mode" }
  else if k = "orgid" then some { maxLength := some 20, description := "Organization ID" }
  else if k = "sign" then some { maxLength := some 500, description := "Digital signature" }
  else if k = "mc" then some { maxLength := some 4, patternOk := some mcPatternOk, description := "Merchant Category Code (4 digits)" }
  else if k = "tid" then some { maxLength := some 35, description := "Transaction ID" }
  else none

/-- The three per-key checks of `validateUpiParams`, in source order (max
length, then pattern, then allowed values); returns the first failure's
message, `none` if the value passes. -/
def firstRuleError (rule : ValidationRule) (k t : String) : Option String :=
  if (match rule.maxLength with | some m => decide (t.length > m) | none => false) then
    some (k ++ ": exceeds maximum length of " ++ toString (rule.maxLength.getD 0) ++ " characters")
  else if (match rule.patternOk with | some p => !(p t) | none => false) then
    some (k ++ ": invalid format. " ++ rule.description)
  else if (match rule.allowedValues with | some vs => !(vs.contains t) | none => false) then
    some (k ++ ": must be one of " ++ String.intercalate ", " (rule.allowedValues.getD []))
  else none

/-- The `for (const [key, value] of Object.entries(params))` loop of
`validateUpiParams`, threading the error list and the normalized map. -/
def validateLoop : Params → List String → Params → List String × Params
  | [], errs, norm => (errs, norm)
  | (k, v) :: rest, errs, norm =>
    if v = "" then validateLoop rest errs norm
    else
      let stringValue := jsTrim v
      if stringValue = "" then validateLoop rest errs norm
      else
        match VALIDATION_RULES k with
        | some rule =>
          (match firstRuleError rule k stringValue with
           | some e => validateLoop rest (errs ++ [e]) norm
           | none => validateLoop rest errs (insertParam norm k stringValue))
        | none => validateLoop rest errs (insertParam norm k stringValue)

/-- The required-field checks at the top of `validateUpiParams`. -/
def requiredErrors (params : Params) : List String :=
  (match lookupParam "pa" params with
   | some v => if jsTrim v = "" then ["Payee Address (pa) is required"] else []
   | none => ["Payee Address (pa) is required"]) ++
  (match lookupParam "pn" params with
   | some v => if jsTrim v = "" then ["Payee Name (pn) is required"] else []
   | none => ["Payee Name (pn) is required"])

structure UpiValidationResult where
  isValid : Bool
  errors : List String
  normalizedParams : Params
  deriving Repr, DecidableEq

/-- JS truthiness of a looked-up string property (`obj.k` is truthy). -/
def truthyAt (ps : Params) (k : String) : Bool :=
  match lookupParam k ps with
  | some v => v != ""
  | none => false

/-- `validateUpiParams` of `src/core/params.ts`. -/
def validateUpiParams (params : Params) : UpiValidationResult :=
  let step := validateLoop params (requiredErrors params) []
  let norm :=
    if truthyAt step.2 "am" && !(truthyAt step.2 "cu") then
      insertParam step.2 "cu" "INR"
    else step.2
  { isValid := step.1.isEmpty, errors := step.1, normalizedParams := norm }

/-- Uppercase hexadecimal digit for `n < 16`. -/
def hexDigitUpper (n : Nat) : Char :=
  if n < 10 then Char.ofNat (48 + n) else Char.ofNat (55 + n)

/-- `%HH` percent escape of one byte. -/
def percentByteChars (b : Nat) : List Char :=
  ['%', hexDigitUpper (b / 16), hexDigitUpper (b % 16)]

/-- UTF-8 encoding of one scalar value, as a byte list. -/
def utf8Bytes (c : Char) : List Nat :=
  let n := c.toNat
  if n < 0x80 then [n]
  else if n < 0x800 then [0xC0 + n / 64, 0x80 + n % 64]
  else if n < 0x10000 then [0xE0 + n / 4096, 0x80 + (n / 64) % 64, 0x80 + n % 64]
  else [0xF0 + n / 0x40000, 0x80 + (n / 4096) % 64, 0x80 + (n / 64) % 64, 0x80 + n % 64]

/-- Characters the `application/x-www-form-urlencoded` serializer leaves
unescaped (ASCII alphanumeric and `*`, `-`, `.`, `_`). -/
def formSafeChar (c : Char) : Bool :=
  c.isAlphanum || c = '*' || c = '-' || c = '.' || c = '_'

/-- `application/x-www-form-urlencoded` serialization of one character
(the encoder behind `URLSearchParams.toString`). -/
def formEncodeChar (c : Char) : List Char :=
  if c = ' ' then ['+']
  else if formSafeChar c then [c]
  else ((utf8Bytes c).map percentByteChars).flatten

/-- Form-urlencode a character list. -/
def formEncodeList (l : List Char) : List Char :=
  (l.map formEncodeChar).flatten

/-- Form-urlencode a string (as used for each key and value). -/
def formEncode (s : String) : String := String.mk (formEncodeList s.data)

/-- Join segments with `&` (the `URLSearchParams.toString` glue). -/
def joinWithAmp : List (List Char) → List Char
  | [] => []
  | [seg] => seg
  | seg :: rest => seg ++ '&' :: joinWithAmp rest

/-- `URLSearchParams.toString` over an entry list: `k=v` pairs joined by
`&`, each side form-urlencoded. -/
def serializeQueryList (entries : Params) : List Char :=
  joinWithAmp
    (entries.map (fun kv => formEncodeList kv.1.data ++ '=' :: formEncodeList kv.2.data))

def serializeQuery (entries : Params) : String := String.mk (serializeQueryList entries)

/-- Characters `encodeURIComponent` leaves unescaped (alphanumeric and
`- _ . ! ~ * ( )` and the apostrophe, code point 39). -/
def uriComponentSafeChar (c : Char) : Bool :=
  c.isAlphanum || c = '-' || c = '_' || c = '.' || c = '!' || c = '~' ||
  c = '*' || c = Char.ofNat 39 || c = '(' || c = ')'

/-- ECMAScript `encodeURIComponent`. -/
def encodeURIComponent (s : String) : String :=
  String.mk ((s.data.map (fun c =>
    if uriComponentSafeChar c then [c] else ((utf8Bytes c).map percentByteChars).flatten)).flatten)

/-- The two actions of the library, a closed enum in the source. -/
inductive UpiAction where
  | pay
  | mandate
  deriving Repr, DecidableEq

/-- The wire token of an action. -/
def UpiAction.str : UpiAction → String
  | .pay => "pay"
  | .mandate => "mandate"

/-- The fixed emission order of recognized keys in `buildUpiUri`. -/
def orderedKeys : List String :=
  ["pa", "pn", "am", "cu", "tr", "tn", "url", "mode", "orgid", "mc", "tid", "sign"]

/-- The ordered-then-extras entry list `buildUpiUri` feeds to
`URLSearchParams`: recognized keys in `orderedKeys` order (skipping absent
or empty values), then the remaining keys in map order. -/
def canonicalEntries (m : Params) : Params :=
  orderedKeys.filterMap (fun k =>
    match lookupParam k m with
    | some v => if v != "" then some (k, v) else none
    | none => none) ++
  m.filter (fun kv => !(orderedKeys.contains kv.1) && kv.2 != "")

/-- `buildUpiUri` of `src/core/params.ts`; the thrown `Error` is the
`Except.error` message. -/
def buildUpiUri (params : Params) (action : UpiAction) : Except String String :=
  let validation := validateUpiParams params
  if !validation.isValid then
    Except.error ("Invalid UPI parameters: " ++ String.intercalate ", " validation.errors)
  else
    let queryString := serializeQuery (canonicalEntries validation.normalizedParams)
    Except.ok ("upi://" ++ action.str ++ (if queryString = "" then "" else "?" ++ queryString))

/-- Split a character list at the first character satisfying `stop`: the
prefix before it and the remainder starting with it. -/
def breakAt (stop : Char → Bool) : List Char → List Char × List Char
  | [] => ([], [])
  | c :: rest =>
    if stop c then ([], c :: rest)
    else
      let r := breakAt stop rest
      (c :: r.1, r.2)

/-- The scheme/host/query components `parseUpiUri` reads off `new URL`. -/
structure URLParts where
  scheme : String
  host : String
  query : String
  deriving Repr, DecidableEq

/-- Scheme characters after the first (`ALPHA / DIGIT / + / - / .`). -/
def schemeChar (c : Char) : Bool :=
  c.isAlphanum || c = '+' || c = '-' || c = '.'

/-- Forbidden host code points of the WHATWG URL standard (an opaque host
containing one makes `new URL` throw). -/
def forbiddenHostChar (c : Char) : Bool :=
  c = Char.ofNat 0x00 || c = Char.ofNat 0x09 || c = Char.ofNat 0x0A ||
  c = Char.ofNat 0x0D || c = ' ' || c = '#' || c = '/' || c = ':' ||
  c = '<' || c = '>' || c = '?' || c = '@' || c = '[' || c = '\\' ||
  c = ']' || c = '^' || c = '|'

/-- What follows the path: the query runs from a `?` to a `#` or the end. -/
def queryOfRemainder (rest : List Char) : List Char :=
  match rest with
  | '?' :: qs => qs.takeWhile (fun c => c != '#')
  | _ => []

/-- WHATWG URL parsing restricted to what the library consumes: scheme
(case-normalized), opaque host of a non-special `//` authority, and the raw
query string.  `none` is a `new URL` throw. -/
def parseURLModel (s : String) : Option URLParts :=
  let sch := breakAt (fun c => c = ':') s.data
  match sch.2 with
  | [] => none
  | _ :: afterColon =>
    if sch.1.isEmpty then none
    else if !(sch.1.headD ' ').isAlpha then none
    else if !sch.1.all schemeChar then none
    else
      let scheme := String.mk (sch.1.map Char.toLower)
      match afterColon with
      | '/' :: '/' :: afterSlashes =>
        let auth := breakAt (fun c => c = '/' || c = '?' || c = '#') afterSlashes
        let hostPort := breakAt (fun c => c = ':') auth.1
        let portOk :=
          match hostPort.2 with
          | [] => true
          | _ :: ds =>
            ds.all Char.isDigit && decide (ds.foldl (fun a c => 10 * a + (c.toNat - 48)) 0 ≤ 65535)
        if hostPort.1.any forbiddenHostChar then none
        else if !portOk then none
        else
          let pathRest :=
            match auth.2 with
            | '/' :: more => (breakAt (fun c => c = '?' || c = '#') more).2
            | other => other
          some ⟨scheme, String.mk hostPort.1, String.mk (queryOfRemainder pathRest)⟩
      | _ =>
        let pathRest := (breakAt (fun c => c = '?' || c = '#') afterColon).2
        some ⟨scheme, "", String.mk (queryOfRemainder pathRest)⟩

/-- Numeric value of a hexadecimal digit character. -/
def hexVal (c : Char) : Option Nat :=
  let n := c.toNat
  if 48 ≤ n && n ≤ 57 then some (n - 48)
  else if 65 ≤ n && n ≤ 70 then some (n - 55)
  else if 97 ≤ n && n ≤ 102 then some (n - 87)
  else none

/-- Percent-decode a character list to a byte list; a malformed escape is
kept literally, and plain characters contribute their UTF-8 bytes. -/
def percentDecodeBytes : List Char → List Nat
  | [] => []
  | '%' :: h1 :: h2 :: rest2 =>
    (match hexVal h1, hexVal h2 with
     | some a, some b => (16 * a + b) :: percentDecodeBytes rest2
     | _, _ => utf8Bytes '%' ++ percentDecodeBytes (h1 :: h2 :: rest2))
  | c :: rest => utf8Bytes c ++ percentDecodeBytes rest
termination_by l => l.length
decreasing_by
  all_goals simp
  all_goals omega

/-- The U+FFFD replacement character. -/
def replChar : Char := Char.ofNat 0xFFFD

/-- A UTF-8 continuation byte. -/
def contByte (b : Nat) : Bool := 0x80 ≤ b && b ≤ 0xBF

/-- Allowed second byte after a three-byte leader (excludes overlong forms
and surrogates). -/
def cont3Ok (b b1 : Nat) : Bool :=
  if b = 0xE0 then 0xA0 ≤ b1 && b1 ≤ 0xBF
  else if b = 0xED then 0x80 ≤ b1 && b1 ≤ 0x9F
  else contByte b1

/-- Allowed second byte after a four-byte leader (excludes overlong forms
and values above U+10FFFF). -/
def cont4Ok (b b1 : Nat) : Bool :=
  if b = 0xF0 then 0x90 ≤ b1 && b1 ≤ 0xBF
  else if b = 0xF4 then 0x80 ≤ b1 && b1 ≤ 0x8F
  else contByte b1

/-- One step of UTF-8 decoding: the decoded character and how many
continuation bytes were consumed (0 on error, emitting U+FFFD). -/
def utf8Step (b : Nat) (rest : List Nat) : Char × Nat :=
  if b < 0x80 then (Char.ofNat b, 0)
  else if 0xC2 ≤ b && b ≤ 0xDF then
    match rest with
    | b1 :: _ =>
      if contByte b1 then (Char.ofNat ((b - 0xC0) * 64 + (b1 - 0x80)), 1)
      else (replChar, 0)
    | [] => (replChar, 0)
  else if 0xE0 ≤ b && b ≤ 0xEF then
    match rest with
    | b1 :: b2 :: _ =>
      if cont3Ok b b1 && contByte b2 then
        (Char.ofNat ((b - 0xE0) * 4096 + (b1 - 0x80) * 64 + (b2 - 0x80)), 2)
      else (replChar, 0)
    | _ => (replChar, 0)
  else if 0xF0 ≤ b && b ≤ 0xF4 then
    match rest with
    | b1 :: b2 :: b3 :: _ =>
      if cont4Ok b b1 && contByte b2 && contByte b3 then
        (Char.ofNat ((b - 0xF0) * 0x40000 + (b1 - 0x80) * 4096 + (b2 - 0x80) * 64 + (b3 - 0x80)), 3)
      else (replChar, 0)
    | _ => (replChar, 0)
  else (replChar, 0)

/-- UTF-8 decoding with U+FFFD replacement on errors. -/
def utf8DecodeBytes : List Nat → List Char
  | [] => []
  | b :: rest =>
    let s := utf8Step b rest
    s.1 :: utf8DecodeBytes (rest.drop s.2)
termination_by l => l.length
decreasing_by simp [List.length_drop]; omega

/-- The `+`-to-space replacement of the urlencoded parser. -/
def plusToSpace (c : Char) : Char := if c = '+' then ' ' else c

/-- Decode one urlencoded token: `+` to space, percent-decode, UTF-8
decode. -/
def decodeComponent (l : List Char) : String :=
  String.mk (utf8DecodeBytes (percentDecodeBytes (l.map plusToSpace)))

/-- Split a character list on `&`. -/
def splitOnAmp : List Char → List (List Char)
  | [] => [[]]
  | c :: rest =>
    if c = '&' then [] :: splitOnAmp rest
    else
      match splitOnAmp rest with
      | seg :: segs => (c :: seg) :: segs
      | [] => [[c]]

/-- One `name=value` segment of the urlencoded parser: split at the first
`=` (the whole segment is the name if there is none). -/
def parseSegment (seg : List Char) : String × String :=
  let nv := breakAt (fun c => c = '=') seg
  match nv.2 with
  | [] => (decodeComponent nv.1, "")
  | _ :: v => (decodeComponent nv.1, decodeComponent v)

/-- The WHATWG `application/x-www-form-urlencoded` parser behind
`URLSearchParams.entries()`: split on `&`, skip empty segments, decode each
side. -/
def parseQueryList (l : List Char) : Params :=
  (splitOnAmp l).filterMap (fun seg => if seg.isEmpty then none else some (parseSegment seg))

/-- The `params[key] = value` loop of `parseUpiUri` over the decoded
entries. -/
def decodeQueryToParams (q : String) : Params :=
  (parseQueryList q.data).foldl (fun acc kv => insertParam acc kv.1 kv.2) []

/-- The result record of `parseUpiUri`. -/
structure ParsedUpi where
  action : UpiAction
  params : Params
  deriving Repr, DecidableEq

/-- `parseUpiUri` of `src/core/params.ts`; thrown errors are `Except.error`
messages (`new URL`'s own throw surfaces as "Invalid URL"). -/
def parseUpiUri (upiUri : String) : Except String ParsedUpi :=
  match parseURLModel upiUri with
  | none => Except.error "Invalid URL"
  | some url =>
    if url.scheme != "upi" then
      Except.error "Invalid UPI URI: must start with upi://"
    else if url.host != "pay" && url.host != "mandate" then
      Except.error "Invalid UPI action: must be \"pay\" or \"mandate\""
    else
      if !(validateUpiParams (decodeQueryToParams url.query)).isValid then
        Except.error ("Invalid UPI parameters: " ++
          String.intercalate ", " (validateUpiParams (decodeQueryToParams url.query)).errors)
      else
        Except.ok ⟨if url.host = "pay" then UpiAction.pay else UpiAction.mandate,
                   (validateUpiParams (decodeQueryToParams url.query)).normalizedParams⟩

/-- The closed app-id set of `src/data/registry.ts`. -/
inductive UpiAppId where
  | generic
  | gpay
  | phonepe
  | paytm
  | bhim
  | amazonpay
  deriving Repr, DecidableEq

/-- The id string of an app (used in the unknown-app error message). -/
def UpiAppId.str : UpiAppId → String
  | .generic => "generic"
  | .gpay => "gpay"
  | .phonepe => "phonepe"
  | .paytm => "paytm"
  | .bhim => "bhim"
  | .amazonpay => "amazonpay"

inductive Platform where
  | android
  | ios
  deriving Repr, DecidableEq

inductive VerificationStatus where
  | verified
  | communityObserved
  deriving Repr, DecidableEq

/-- A registry entry (`UpiApp` of `src/data/registry.ts`): per-platform and
per-action link templates, optional Android package and store URLs, and a
verification status. -/
structure UpiApp where
  id : UpiAppId
  label : String
  androidPackage : Option String := none
  androidPay : String
  androidMandate : String
  iosPay : String
  iosMandate : String
  storePlay : Option String := none
  storeApp : Option String := none
  status : VerificationStatus
  deriving Repr, DecidableEq

/-- Modelled from the spec: the registry's data file (`apps.json`) is not
among the available sources, only its consumer `src/data/registry.ts`.
Entries follow §3 (closed id set, labels, optional Android package, iOS
`{query}` templates, store URLs, verification status), §4.2 (the `generic`
entry has no Android package, so Android links degrade to the plain
`upi://` form) and §8 (the Google Pay package id and verified status; the
community-observed PhonePe package id). -/
def appsData : List UpiApp :=
  [{ id := UpiAppId.gpay, label := "Google Pay",
     androidPackage := some "com.google.android.apps.nbu.paisa.user",
     androidPay := "gpay://upi/pay?{query}", androidMandate := "gpay://upi/mandate?{query}",
     iosPay := "gpay://upi/pay?{query}", iosMandate := "gpay://upi/mandate?{query}",
     storePlay := some "https://play.google.com/store/apps/details?id=com.google.android.apps.nbu.paisa.user",
     storeApp := some "https://apps.apple.com/in/app/google-pay/id1193357041",
     status := VerificationStatus.verified },
   { id := UpiAppId.phonepe, label := "PhonePe",
     androidPackage := some "com.phonepe.app",
     androidPay := "phonepe://pay?{query}", androidMandate := "phonepe://mandate?{query}",
     iosPay := "phonepe://pay?{query}", iosMandate := "phonepe://mandate?{query}",
     storePlay := some "https://play.google.com/store/apps/details?id=com.phonepe.app",
     storeApp := some "https://apps.apple.com/in/app/phonepe-upi-payments/id1170055821",
     status := VerificationStatus.communityObserved },
   { id := UpiAppId.paytm, label := "Paytm",
     androidPackage := some "net.one97.paytm",
     androidPay := "paytmmp://pay?{query}", androidMandate := "paytmmp://mandate?{query}",
     iosPay := "paytmmp://pay?{query}", iosMandate := "paytmmp://mandate?{query}",
     storePlay := some "https://play.google.com/store/apps/details?id=net.one97.paytm",
     storeApp := some "https://apps.apple.com/in/app/paytm/id473941634",
     status := VerificationStatus.communityObserved },
   { id := UpiAppId.bhim, label := "BHIM",
     androidPackage := some "in.org.npci.upiapp",
     androidPay := "bhim://pay?{query}", androidMandate := "bhim://mandate?{query}",
     iosPay := "bhim://pay?{query}", iosMandate := "bhim://mandate?{query}",
     storePlay := some "https://play.google.com/store/apps/details?id=in.org.npci.upiapp",
     storeApp := some "https://apps.apple.com/in/app/bhim/id1200315258",
     status := VerificationStatus.communityObserved },
   { id := UpiAppId.amazonpay, label := "Amazon Pay",
     androidPackage := some "in.amazon.mShop.android.shopping",
     androidPay := "amazonpay://pay?{query}", androidMandate := "amazonpay://mandate?{query}",
     iosPay := "amazonpay://pay?{query}", iosMandate := "amazonpay://mandate?{query}",
     storePlay := some "https://play.google.com/store/apps/details?id=in.amazon.mShop.android.shopping",
     storeApp := some "https://apps.apple.com/in/app/amazon-india-shop-pay/id1478350915",
     status := VerificationStatus.communityObserved },
   { id := UpiAppId.generic, label := "UPI",
     androidPay := "upi://pay?{query}", androidMandate := "upi://mandate?{query}",
     iosPay := "upi://pay?{query}", iosMandate := "upi://mandate?{query}",
     status := VerificationStatus.verified }]

/-- `getApp` of `src/data/registry.ts`. -/
def getApp (appId : UpiAppId) : Option UpiApp :=
  appsData.find? (fun app => app.id = appId)

/-- `getAppLinkTemplate` of `src/data/registry.ts`. -/
def getAppLinkTemplate (appId : UpiAppId) (platform : Platform) (action : UpiAction) : Option String :=
  match getApp appId with
  | none => none
  | some app =>
    some (match platform, action with
          | Platform.android, UpiAction.pay => app.androidPay
          | Platform.android, UpiAction.mandate => app.androidMandate
          | Platform.ios, UpiAction.pay => app.iosPay
          | Platform.ios, UpiAction.mandate => app.iosMandate)

/-- `getStoreUrl` of `src/data/registry.ts`. -/
def getStoreUrl (appId : UpiAppId) (platform : Platform) : Option String :=
  match getApp appId with
  | none => none
  | some app =>
    match platform with
    | Platform.android => app.storePlay
    | Platform.ios => app.storeApp

/-- `detectPlatform` of `src/core/linkers.ts`; the ambient
`navigator.userAgent` is passed explicitly (`none` is a missing
`navigator`).  The `iphone|ipad|ipod` test is substring containment on the
lowercased agent. -/
def lowerStr (s : String) : String := String.mk (s.data.map Char.toLower)

/-- Substring containment (a JS regex literal-alternative test). -/
def containsSeq (hay pat : String) : Bool :=
  decide (pat.data <:+: hay.data)

def detectPlatform (userAgent : Option String) : Platform :=
  match userAgent with
  | none => Platform.android
  | some ua =>
    let u := lowerStr ua
    if containsSeq u "iphone" || containsSeq u "ipad" || containsSeq u "ipod" then Platform.ios
    else Platform.android

/-- `supportsIntentUrls` of `src/core/linkers.ts`. -/
def supportsIntentUrls (userAgent : Option String) : Bool :=
  match userAgent with
  | none => false
  | some ua =>
    let u := lowerStr ua
    containsSeq u "android" &&
    (containsSeq u "chrome" || containsSeq u "chromium" || containsSeq u "crios")

/-- Replace the first occurrence of `pat` in `l` by `rep` (ECMAScript
`String.prototype.replace` with a string pattern). -/
def replaceFirstList (l pat rep : List Char) : List Char :=
  match l with
  | [] => []
  | c :: rest =>
    if pat.isPrefixOf l then rep ++ l.drop pat.length
    else c :: replaceFirstList rest pat rep

/-- `buildAndroidIntentUrl` of `src/core/linkers.ts`. -/
def buildAndroidIntentUrl (appId : UpiAppId) (upiQuery : String) (action : UpiAction)
    (fallbackUrl : Option String) : String :=
  match getApp appId with
  | none => "upi://" ++ action.str ++ "?" ++ upiQuery
  | some app =>
    match app.androidPackage with
    | none => "upi://" ++ action.str ++ "?" ++ upiQuery
    | some pkg =>
      if pkg = "" then "upi://" ++ action.str ++ "?" ++ upiQuery
      else
        let base := "intent://" ++ action.str ++ "?" ++ upiQuery ++
                    "#Intent;scheme=upi;package=" ++ pkg
        let withFb :=
          match fallbackUrl with
          | some fb => if fb = "" then base else base ++ ";S.browser_fallback_url=" ++ encodeURIComponent fb
          | none => base
        withFb ++ ";end"

/-- `buildIosSchemeUrl` of `src/core/linkers.ts`. -/
def buildIosSchemeUrl (appId : UpiAppId) (upiQuery : String) (action : UpiAction) : String :=
  match getAppLinkTemplate appId Platform.ios action with
  | none => "upi://" ++ action.str ++ "?" ++ upiQuery
  | some template =>
    if template = "" then "upi://" ++ action.str ++ "?" ++ upiQuery
    else String.mk (replaceFirstList template.data "{query}".data upiQuery.data)

/-- `extractQueryFromUri` of `src/core/linkers.ts`: parse, then re-encode
the normalized entries with `URLSearchParams`. -/
def extractQueryFromUri (upiUri : String) : Except String String :=
  match parseUpiUri upiUri with
  | Except.error e => Except.error ("Invalid UPI URI: " ++ e)
  | Except.ok parsed =>
    Except.ok (serializeQuery (parsed.params.filter (fun kv => kv.2 != "")))

/-- `AppLinkOptions` of `src/core/linkers.ts`; the structure defaults mirror
the destructuring defaults (`action = 'pay'`, `includeFallback = true`). -/
structure AppLinkOptions where
  appId : UpiAppId
  upiUri : Option String := none
  upiParams : Option Params := none
  platform : Platform
  action : UpiAction := UpiAction.pay
  fallbackUrl : Option String := none
  includeFallback : Bool := true

/-- `GeneratedLink` of `src/core/linkers.ts` (app metadata denormalized into
the record). -/
structure GeneratedLink where
  url : String
  fallbackUrl : Option String
  appIdField : UpiAppId
  appLabel : String
  appVerified : Bool
  platform : Platform
  action : UpiAction
  deriving Repr, DecidableEq

/-- JS truthiness of an optional string (`undefined` and `""` are falsy). -/
def truthyOptStr : Option String → Bool
  | some s => s != ""
  | none => false

/-- JS `a || b` over optional strings (`a` unless it is falsy). -/
def orFalsy (a b : Option String) : Option String :=
  match a with
  | some s => if s != "" then some s else b
  | none => b

/-- `buildAppLink` of `src/core/linkers.ts`. -/
def buildAppLink (options : AppLinkOptions) : Except String GeneratedLink :=
  if !truthyOptStr options.upiUri && options.upiParams.isNone then
    Except.error "Either upiUri or upiParams must be provided"
  else
    match getApp options.appId with
    | none => Except.error ("Unknown app ID: " ++ options.appId.str)
    | some app =>
      let baseUriE :=
        match options.upiUri with
        | some s =>
          if s != "" then Except.ok s
          else
            (match options.upiParams with
             | some ps => buildUpiUri ps options.action
             | none => Except.error "Either upiUri or upiParams must be provided")
        | none =>
          match options.upiParams with
          | some ps => buildUpiUri ps options.action
          | none => Except.error "Either upiUri or upiParams must be provided"
      match baseUriE with
      | Except.error e => Except.error e
      | Except.ok baseUri =>
        match extractQueryFromUri baseUri with
        | Except.error e => Except.error e
        | Except.ok upiQuery =>
          match options.platform with
          | Platform.android =>
            let resolvedFallbackUrl :=
              if options.includeFallback then
                orFalsy options.fallbackUrl (getStoreUrl options.appId Platform.android)
              else none
            Except.ok
              { url := buildAndroidIntentUrl options.appId upiQuery options.action resolvedFallbackUrl,
                fallbackUrl := resolvedFallbackUrl,
                appIdField := options.appId,
                appLabel := app.label,
                appVerified := app.status = VerificationStatus.verified,
                platform := Platform.android,
                action := options.action }
          | Platform.ios =>
            let resolvedFallbackUrl :=
              orFalsy options.fallbackUrl (getStoreUrl options.appId Platform.ios)
            Except.ok
              { url := buildIosSchemeUrl options.appId upiQuery options.action,
                fallbackUrl := resolvedFallbackUrl,
                appIdField := options.appId,
                appLabel := app.label,
                appVerified := app.status = VerificationStatus.verified,
                platform := Platform.ios,
                action := options.action }

/-! ### Association-list toolkit -/

/-- The key list of a parameter map. -/
def keysOf (ps : Params) : List String := ps.map Prod.fst

theorem lookupParam_append (k : String) (a b : Params) :
    lookupParam k (a ++ b) =
      (match lookupParam k a with
       | some v => some v
       | none => lookupParam k b) := by
  induction a with
  | nil => simp [lookupParam]
  | cons kv rest ih =>
    obtain ⟨k', v⟩ := kv
    by_cases h : k' = k <;> simp [lookupParam, h, ih]

theorem lookupParam_eq_none_iff (k : String) (ps : Params) :
    lookupParam k ps = none ↔ k ∉ keysOf ps := by
  induction ps with
  | nil => simp [lookupParam, keysOf]
  | cons kv rest ih =>
    obtain ⟨k', v⟩ := kv
    by_cases h : k' = k
    · subst h
      simp [lookupParam, keysOf]
    · simp [lookupParam, h, keysOf, ih]
      intro hx
      exact fun hk => h hk.symm

theorem lookupParam_mem {k v : String} {ps : Params} (h : lookupParam k ps = some v) :
    (k, v) ∈ ps := by
  induction ps with
  | nil => simp [lookupParam] at h
  | cons kv rest ih =>
    obtain ⟨k', v'⟩ := kv
    by_cases hk : k' = k
    · subst hk
      simp [lookupParam] at h
      simp [h]
    · simp [lookupParam, hk] at h
      exact List.mem_cons_of_mem _ (ih h)

theorem lookupParam_of_mem {k v : String} {ps : Params}
    (hnd : (keysOf ps).Nodup) (h : (k, v) ∈ ps) : lookupParam k ps = some v := by
  induction ps with
  | nil => simp at h
  | cons kv rest ih =>
    obtain ⟨k', v'⟩ := kv
    simp only [keysOf, List.map_cons, List.nodup_cons] at hnd
    rcases List.mem_cons.mp h with h1 | h1
    · rw [Prod.mk.injEq] at h1
      obtain ⟨hk, hv⟩ := h1
      subst hk; subst hv
      simp [lookupParam]
    · have hk : k' ≠ k := by
        intro hkk
        subst hkk
        exact hnd.1 (List.mem_map_of_mem Prod.fst h1)
      simp [lookupParam, hk]
      exact ih hnd.2 h1

theorem lookupParam_insertParam_self (ps : Params) (k v : String) :
    lookupParam k (insertParam ps k v) = some v := by
  induction ps with
  | nil => simp [insertParam, lookupParam]
  | cons kv rest ih =>
    obtain ⟨k', v'⟩ := kv
    by_cases h : k' = k <;> simp [insertParam, h, lookupParam, ih]

theorem lookupParam_insertParam_ne (ps : Params) {k k' : String} (v : String) (h : k' ≠ k) :
    lookupParam k (insertParam ps k' v) = lookupParam k ps := by
  induction ps with
  | nil => simp [insertParam, lookupParam, h]
  | cons kv rest ih =>
    obtain ⟨k0, v0⟩ := kv
    by_cases h0 : k0 = k'
    · subst h0
      simp [insertParam, lookupParam, h]
    · by_cases h1 : k0 = k
      · subst h1
        simp [insertParam, h0, lookupParam]
      · simp [insertParam, h0, lookupParam, h1, ih]

theorem insertParam_fresh {ps : Params} {k : String} (v : String)
    (h : lookupParam k ps = none) : insertParam ps k v = ps ++ [(k, v)] := by
  induction ps with
  | nil => simp [insertParam]
  | cons kv rest ih =>
    obtain ⟨k', v'⟩ := kv
    by_cases hk : k' = k
    · simp [lookupParam, hk] at h
    · simp [lookupParam, hk] at h
      simp [insertParam, hk, ih h]

theorem mem_insertParam {x : String × String} {ps : Params} {k v : String}
    (h : x ∈ insertParam ps k v) : x ∈ ps ∨ x = (k, v) := by
  induction ps with
  | nil => simp [insertParam] at h; simp [h]
  | cons kv rest ih =>
    obtain ⟨k', v'⟩ := kv
    by_cases hk : k' = k
    · simp [insertParam, hk] at h
      rcases h with h | h
      · right; simp [h]
      · left; exact List.mem_cons_of_mem _ h
    · simp [insertParam, hk] at h
      rcases h with h | h
      · left; simp [h]
      · rcases ih h with h1 | h1
        · left; exact List.mem_cons_of_mem _ h1
        · right; exact h1

theorem keysOf_insertParam_nodup {ps : Params} (k v : String)
    (hnd : (keysOf ps).Nodup) : (keysOf (insertParam ps k v)).Nodup := by
  induction ps with
  | nil => simp [insertParam, keysOf]
  | cons kv rest ih =>
    obtain ⟨k', v'⟩ := kv
    simp [keysOf, List.nodup_cons] at hnd
    by_cases hk : k' = k
    · subst hk
      simp [insertParam, keysOf, List.nodup_cons]
      exact ⟨fun v0 h => hnd.1 v0 h, hnd.2⟩
    · simp [insertParam, hk, keysOf, List.nodup_cons]
      constructor
      · intro v0 h
        rcases mem_insertParam h with h1 | h1
        · exact hnd.1 v0 h1
        · exact absurd (congrArg Prod.fst h1) hk
      · exact ih hnd.2

/-! ### JS trim -/

theorem dropWhile_dropWhile (p : α → Bool) (l : List α) :
    (l.dropWhile p).dropWhile p = l.dropWhile p := by
  induction l with
  | nil => simp
  | cons c rest ih =>
    by_cases h : p c <;> simp [List.dropWhile_cons, h, ih]

theorem dropWhile_eq_self_of_head (p : α → Bool) (l : List α)
    (h : ∀ x ∈ l.take 1, p x = false) : l.dropWhile p = l := by
  cases l with
  | nil => simp
  | cons c rest =>
    have hc : p c = false := h c (by simp)
    simp [List.dropWhile_cons, hc]

theorem head_fail_of_dropWhile (p : α → Bool) (l : List α) :
    ∀ x ∈ (l.dropWhile p).take 1, p x = false := by
  induction l with
  | nil => simp
  | cons c rest ih =>
    by_cases h : p c
    · simpa [List.dropWhile_cons, h] using ih
    · intro x hx
      simp [List.dropWhile_cons, h] at hx
      subst hx
      simpa using h

theorem trimList_eq_dropWhile_append (l : List Char) :
    l.dropWhile jsWhitespaceChar =
      trimList l ++ ((l.dropWhile jsWhitespaceChar).reverse.takeWhile jsWhitespaceChar).reverse := by
  unfold trimList
  rw [← List.reverse_append, List.takeWhile_append_dropWhile, List.reverse_reverse]

theorem trimList_head_fail (l : List Char) :
    ∀ x ∈ (trimList l).take 1, jsWhitespaceChar x = false := by
  intro x hx
  cases htl : trimList l with
  | nil => simp [htl] at hx
  | cons y ys =>
    have hy : x = y := by simpa [htl] using hx
    have hsplit := trimList_eq_dropWhile_append l
    rw [htl] at hsplit
    have hall := head_fail_of_dropWhile jsWhitespaceChar l
    rw [hsplit] at hall
    rw [hy]
    exact hall y (by simp)

theorem trimList_idem (l : List Char) : trimList (trimList l) = trimList l := by
  have h1 : (trimList l).dropWhile jsWhitespaceChar = trimList l :=
    dropWhile_eq_self_of_head _ _ (trimList_head_fail l)
  show (((trimList l).dropWhile jsWhitespaceChar).reverse.dropWhile jsWhitespaceChar).reverse = trimList l
  rw [h1]
  show ((((l.dropWhile jsWhitespaceChar).reverse.dropWhile jsWhitespaceChar).reverse).reverse.dropWhile jsWhitespaceChar).reverse = trimList l
  rw [List.reverse_reverse, dropWhile_dropWhile]
  rfl

theorem jsTrim_idem (s : String) : jsTrim (jsTrim s) = jsTrim s := by
  show String.mk (trimList (trimList s.data)) = String.mk (trimList s.data)
  rw [trimList_idem]

/-! ### Pointwise characterization of `validateUpiParams` -/

/-- The error (if any) that the validation loop records for one input
entry: nothing for empty-after-trim values or unknown keys, else the first
failing check of the key's rule. -/
def entryRuleError (k v : String) : Option String :=
  if jsTrim v = "" then none
  else
    match VALIDATION_RULES k with
    | some rule => firstRuleError rule k (jsTrim v)
    | none => none

/-- Does one input entry make it into the normalized map? -/
def entryPasses (k v : String) : Bool :=
  jsTrim v != "" && (entryRuleError k v).isNone

/-- What the per-entry processing contributes to the normalized map at one
key, before the currency injection. -/
def baseLookup (p : Params) (k : String) : Option String :=
  match lookupParam k p with
  | some v => if entryPasses k v then some (jsTrim v) else none
  | none => none

/-- A value the loop may store: non-empty, trim-fixed and passing its rule
(if any). -/
def goodEntry (k t : String) : Prop :=
  t ≠ "" ∧ jsTrim t = t ∧ entryRuleError k t = none

instance (k t : String) : Decidable (goodEntry k t) := by
  unfold goodEntry
  infer_instance

theorem validateLoop_cons_skip1 {v : String} (k : String) (rest : Params)
    (errs : List String) (norm : Params) (hv : v = "") :
    validateLoop ((k, v) :: rest) errs norm = validateLoop rest errs norm := by
  simp [validateLoop, hv]

theorem validateLoop_cons_skip2 {v : String} (k : String) (rest : Params)
    (errs : List String) (norm : Params) (hv : v ≠ "") (ht : jsTrim v = "") :
    validateLoop ((k, v) :: rest) errs norm = validateLoop rest errs norm := by
  simp [validateLoop, hv, ht]

theorem validateLoop_cons_err {k v : String} (rest : Params)
    (errs : List String) (norm : Params) {rule : ValidationRule} {e : String}
    (hv : v ≠ "") (ht : jsTrim v ≠ "") (hr : VALIDATION_RULES k = some rule)
    (he : firstRuleError rule k (jsTrim v) = some e) :
    validateLoop ((k, v) :: rest) errs norm = validateLoop rest (errs ++ [e]) norm := by
  simp [validateLoop, hv, ht, hr, he]

theorem validateLoop_cons_pass_rule {k v : String} (rest : Params)
    (errs : List String) (norm : Params) {rule : ValidationRule}
    (hv : v ≠ "") (ht : jsTrim v ≠ "") (hr : VALIDATION_RULES k = some rule)
    (he : firstRuleError rule k (jsTrim v) = none) :
    validateLoop ((k, v) :: rest) errs norm =
      validateLoop rest errs (insertParam norm k (jsTrim v)) := by
  simp [validateLoop, hv, ht, hr, he]

theorem validateLoop_cons_pass_norule {k v : String} (rest : Params)
    (errs : List String) (norm : Params)
    (hv : v ≠ "") (ht : jsTrim v ≠ "") (hr : VALIDATION_RULES k = none) :
    validateLoop ((k, v) :: rest) errs norm =
      validateLoop rest errs (insertParam norm k (jsTrim v)) := by
  simp [validateLoop, hv, ht, hr]

theorem jsTrim_empty : jsTrim "" = "" := rfl

theorem entryRuleError_eq_of_skip {k v : String} (ht : jsTrim v = "") :
    entryRuleError k v = none := by
  simp [entryRuleError, ht]

theorem entryPasses_false_of_skip {k v : String} (ht : jsTrim v = "") :
    entryPasses k v = false := by
  simp [entryPasses, ht]

theorem validateLoop_errors (p : Params) (errs : List String) (norm : Params) :
    (validateLoop p errs norm).1 = errs ++ p.filterMap (fun kv => entryRuleError kv.1 kv.2) := by
  induction p generalizing errs norm with
  | nil => simp [validateLoop]
  | cons kv rest ih =>
    obtain ⟨k, v⟩ := kv
    by_cases hv : v = ""
    · subst hv
      rw [validateLoop_cons_skip1 k rest errs norm rfl, ih]
      simp [entryRuleError_eq_of_skip jsTrim_empty]
    · by_cases ht : jsTrim v = ""
      · rw [validateLoop_cons_skip2 k rest errs norm hv ht, ih]
        simp [entryRuleError_eq_of_skip ht]
      · cases hr : VALIDATION_RULES k with
        | none =>
          rw [validateLoop_cons_pass_norule rest errs norm hv ht hr, ih]
          simp [entryRuleError, ht, hr]
        | some rule =>
          cases he : firstRuleError rule k (jsTrim v) with
          | none =>
            rw [validateLoop_cons_pass_rule rest errs norm hv ht hr he, ih]
            simp [entryRuleError, ht, hr, he]
          | some e =>
            rw [validateLoop_cons_err rest errs norm hv ht hr he, ih]
            simp [entryRuleError, ht, hr, he]

theorem validateLoop_lookup (p : Params) (errs : List String) (norm : Params) (k : String)
    (hnd : (keysOf p).Nodup) :
    lookupParam k (validateLoop p errs norm).2 =
      (match lookupParam k p with
       | some v => if entryPasses k v then some (jsTrim v) else lookupParam k norm
       | none => lookupParam k norm) := by
  induction p generalizing errs norm with
  | nil => simp [validateLoop, lookupParam]
  | cons kv rest ih =>
    obtain ⟨k0, v0⟩ := kv
    simp only [keysOf, List.map_cons, List.nodup_cons] at hnd
    have ihr := fun errs norm => ih errs norm hnd.2
    by_cases hk : k0 = k
    · subst hk
      have hrest : lookupParam k0 rest = none :=
        (lookupParam_eq_none_iff k0 rest).mpr hnd.1
      have hhead : lookupParam k0 ((k0, v0) :: rest) = some v0 := by
        simp [lookupParam]
      rw [hhead]
      by_cases hv : v0 = ""
      · subst hv
        rw [validateLoop_cons_skip1 k0 rest errs norm rfl, ihr, hrest]
        simp [entryPasses_false_of_skip jsTrim_empty]
      · by_cases ht : jsTrim v0 = ""
        · rw [validateLoop_cons_skip2 k0 rest errs norm hv ht, ihr, hrest]
          simp [entryPasses_false_of_skip ht]
        · cases hr : VALIDATION_RULES k0 with
          | none =>
            rw [validateLoop_cons_pass_norule rest errs norm hv ht hr, ihr, hrest]
            simp [entryPasses, entryRuleError, ht, hr, lookupParam_insertParam_self]
          | some rule =>
            cases he : firstRuleError rule k0 (jsTrim v0) with
            | none =>
              rw [validateLoop_cons_pass_rule rest errs norm hv ht hr he, ihr, hrest]
              simp [entryPasses, entryRuleError, ht, hr, he, lookupParam_insertParam_self]
            | some e =>
              rw [validateLoop_cons_err rest errs norm hv ht hr he, ihr, hrest]
              simp [entryPasses, entryRuleError, ht, hr, he]
    · have hlk : lookupParam k ((k0, v0) :: rest) = lookupParam k rest := by
        simp [lookupParam, hk]
      rw [hlk]
      by_cases hv : v0 = ""
      · rw [validateLoop_cons_skip1 k0 rest errs norm hv, ihr]
      · by_cases ht : jsTrim v0 = ""
        · rw [validateLoop_cons_skip2 k0 rest errs norm hv ht, ihr]
        · cases hr : VALIDATION_RULES k0 with
          | none =>
            rw [validateLoop_cons_pass_norule rest errs norm hv ht hr, ihr]
            cases hlr : lookupParam k rest with
            | none => simp [lookupParam_insertParam_ne _ _ hk]
            | some v => simp [lookupParam_insertParam_ne _ _ hk]
          | some rule =>
            cases he : firstRuleError rule k0 (jsTrim v0) with
            | none =>
              rw [validateLoop_cons_pass_rule rest errs norm hv ht hr he, ihr]
              cases hlr : lookupParam k rest with
              | none => simp [lookupParam_insertParam_ne _ _ hk]
              | some v => simp [lookupParam_insertParam_ne _ _ hk]
            | some e =>
              rw [validateLoop_cons_err rest errs norm hv ht hr he, ihr]

theorem validateLoop_mem_good (p : Params) (errs : List String) (norm : Params)
    (hnorm : ∀ kt ∈ norm, goodEntry kt.1 kt.2) :
    ∀ kt ∈ (validateLoop p errs norm).2, goodEntry kt.1 kt.2 := by
  induction p generalizing errs norm with
  | nil => simpa [validateLoop] using hnorm
  | cons kv rest ih =>
    obtain ⟨k, v⟩ := kv
    by_cases hv : v = ""
    · rw [validateLoop_cons_skip1 k rest errs norm hv]
      exact ih errs norm hnorm
    · by_cases ht : jsTrim v = ""
      · rw [validateLoop_cons_skip2 k rest errs norm hv ht]
        exact ih errs norm hnorm
      · cases hr : VALIDATION_RULES k with
        | none =>
          rw [validateLoop_cons_pass_norule rest errs norm hv ht hr]
          refine ih errs _ ?_
          intro kt hkt
          rcases mem_insertParam hkt with h1 | h1
          · exact hnorm kt h1
          · subst h1
            refine ⟨ht, jsTrim_idem v, ?_⟩
            rw [show entryRuleError k (jsTrim v) = entryRuleError k v by
                  unfold entryRuleError; rw [jsTrim_idem]]
            simp [entryRuleError, ht, hr]
        | some rule =>
          cases he : firstRuleError rule k (jsTrim v) with
          | some e =>
            rw [validateLoop_cons_err rest errs norm hv ht hr he]
            exact ih _ norm hnorm
          | none =>
            rw [validateLoop_cons_pass_rule rest errs norm hv ht hr he]
            refine ih errs _ ?_
            intro kt hkt
            rcases mem_insertParam hkt with h1 | h1
            · exact hnorm kt h1
            · subst h1
              refine ⟨ht, jsTrim_idem v, ?_⟩
              rw [show entryRuleError k (jsTrim v) = entryRuleError k v by
                    unfold entryRuleError; rw [jsTrim_idem]]
              simp [entryRuleError, ht, hr, he]

theorem validateLoop_keys_nodup (p : Params) (errs : List String) (norm : Params)
    (h : (keysOf norm).Nodup) : (keysOf (validateLoop p errs norm).2).Nodup := by
  induction p generalizing errs norm with
  | nil => simpa [validateLoop] using h
  | cons kv rest ih =>
    obtain ⟨k, v⟩ := kv
    by_cases hv : v = ""
    · rw [validateLoop_cons_skip1 k rest errs norm hv]
      exact ih errs norm h
    · by_cases ht : jsTrim v = ""
      · rw [validateLoop_cons_skip2 k rest errs norm hv ht]
        exact ih errs norm h
      · cases hr : VALIDATION_RULES k with
        | none =>
          rw [validateLoop_cons_pass_norule rest errs norm hv ht hr]
          exact ih errs _ (keysOf_insertParam_nodup _ _ h)
        | some rule =>
          cases he : firstRuleError rule k (jsTrim v) with
          | some e =>
            rw [validateLoop_cons_err rest errs norm hv ht hr he]
            exact ih _ norm h
          | none =>
            rw [validateLoop_cons_pass_rule rest errs norm hv ht hr he]
            exact ih errs _ (keysOf_insertParam_nodup _ _ h)

theorem baseLookup_ne_empty {p : Params} {k t : String} (h : baseLookup p k = some t) :
    t ≠ "" := by
  unfold baseLookup at h
  cases hl : lookupParam k p with
  | none => simp [hl] at h
  | some v =>
    rw [hl] at h
    by_cases hp : entryPasses k v
    · simp [hp] at h
      subst h
      simp [entryPasses] at hp
      exact hp.1
    · simp [hp] at h

theorem validate_errors (p : Params) :
    (validateUpiParams p).errors =
      requiredErrors p ++ p.filterMap (fun kv => entryRuleError kv.1 kv.2) := by
  unfold validateUpiParams
  simp [validateLoop_errors]

theorem validate_isValid (p : Params) :
    (validateUpiParams p).isValid = (validateUpiParams p).errors.isEmpty := by
  unfold validateUpiParams
  simp

theorem loop_lookup_base (p : Params) (errs : List String) (k : String)
    (hnd : (keysOf p).Nodup) :
    lookupParam k (validateLoop p errs []).2 = baseLookup p k := by
  rw [validateLoop_lookup p errs [] k hnd]
  unfold baseLookup
  cases lookupParam k p with
  | none => simp [lookupParam]
  | some v => simp [lookupParam]

theorem truthyAt_base (p : Params) (errs : List String) (k : String)
    (hnd : (keysOf p).Nodup) :
    truthyAt (validateLoop p errs []).2 k = (baseLookup p k).isSome := by
  unfold truthyAt
  rw [loop_lookup_base p errs k hnd]
  cases hb : baseLookup p k with
  | none => simp
  | some t =>
    have := baseLookup_ne_empty hb
    simp [this]

theorem validate_norm_lookup (p : Params) (hnd : (keysOf p).Nodup) (k : String)
    (hk : k ≠ "cu") :
    lookupParam k (validateUpiParams p).normalizedParams = baseLookup p k := by
  unfold validateUpiParams
  simp only []
  by_cases hcond :
      (truthyAt (validateLoop p (requiredErrors p) []).2 "am" &&
        !truthyAt (validateLoop p (requiredErrors p) []).2 "cu") = true
  · simp only [hcond, if_pos rfl]
    show lookupParam k (insertParam (validateLoop p (requiredErrors p) []).2 "cu" "INR") = _
    rw [lookupParam_insertParam_ne _ _ (fun h => hk h.symm)]
    exact loop_lookup_base p _ k hnd
  · simp only [Bool.not_eq_true] at hcond
    simp only [hcond]
    show lookupParam k (validateLoop p (requiredErrors p) []).2 = _
    exact loop_lookup_base p _ k hnd

theorem validate_norm_lookup_cu (p : Params) (hnd : (keysOf p).Nodup) :
    lookupParam "cu" (validateUpiParams p).normalizedParams =
      (if (baseLookup p "am").isSome && (baseLookup p "cu").isNone then some "INR"
       else baseLookup p "cu") := by
  unfold validateUpiParams
  simp only []
  have ham := truthyAt_base p (requiredErrors p) "am" hnd
  have hcu := truthyAt_base p (requiredErrors p) "cu" hnd
  have hc2 : (truthyAt (validateLoop p (requiredErrors p) []).2 "am" &&
      !truthyAt (validateLoop p (requiredErrors p) []).2 "cu") =
      ((baseLookup p "am").isSome && (baseLookup p "cu").isNone) := by
    rw [ham, hcu]
    cases baseLookup p "cu" <;> cases baseLookup p "am" <;> simp
  rw [hc2]
  by_cases hcond : ((baseLookup p "am").isSome && (baseLookup p "cu").isNone) = true
  · simp only [hcond, if_pos rfl]
    show lookupParam "cu" (insertParam (validateLoop p (requiredErrors p) []).2 "cu" "INR") = _
    rw [lookupParam_insertParam_self]
    simp [hcond]
  · simp only [Bool.not_eq_true] at hcond
    simp only [hcond]
    show lookupParam "cu" (validateLoop p (requiredErrors p) []).2 = _
    rw [loop_lookup_base p _ "cu" hnd]
    simp

theorem validate_norm_nodup (p : Params) :
    (keysOf (validateUpiParams p).normalizedParams).Nodup := by
  unfold validateUpiParams
  simp only []
  have hstep := validateLoop_keys_nodup p (requiredErrors p) [] (by simp [keysOf])
  by_cases hcond :
      (truthyAt (validateLoop p (requiredErrors p) []).2 "am" &&
        !truthyAt (validateLoop p (requiredErrors p) []).2 "cu") = true
  · simp only [hcond, if_pos rfl]
    exact keysOf_insertParam_nodup _ _ hstep
  · simp only [Bool.not_eq_true] at hcond
    simp only [hcond]
    exact hstep

theorem validate_norm_good (p : Params) :
    ∀ kt ∈ (validateUpiParams p).normalizedParams, goodEntry kt.1 kt.2 := by
  unfold validateUpiParams
  simp only []
  have hstep := validateLoop_mem_good p (requiredErrors p) [] (by simp)
  by_cases hcond :
      (truthyAt (validateLoop p (requiredErrors p) []).2 "am" &&
        !truthyAt (validateLoop p (requiredErrors p) []).2 "cu") = true
  · simp only [hcond, if_pos rfl]
    intro kt hkt
    rcases mem_insertParam hkt with h1 | h1
    · exact hstep kt h1
    · subst h1
      exact (by decide : goodEntry "cu" "INR")
  · simp only [Bool.not_eq_true] at hcond
    simp only [hcond]
    exact hstep

/-! ### Encode/decode inverses -/

theorem hexRound : ∀ n, n < 16 → hexVal (hexDigitUpper n) = some n := by decide

theorem hexDigitUpper_ne : ∀ n, n < 16 →
    hexDigitUpper n ≠ '+' ∧ hexDigitUpper n ≠ '%' ∧ hexDigitUpper n ≠ '&' ∧
    hexDigitUpper n ≠ '=' ∧ hexDigitUpper n ≠ '#' := by decide

theorem char_toNat_valid (c : Char) :
    c.toNat < 0xD800 ∨ (0xDFFF < c.toNat ∧ c.toNat < 0x110000) := by
  have h := c.valid
  unfold UInt32.isValidChar Nat.isValidChar at h
  exact h

theorem utf8Bytes_lt (c : Char) : ∀ b ∈ utf8Bytes c, b < 256 := by
  have hv := char_toNat_valid c
  unfold utf8Bytes
  by_cases h1 : c.toNat < 0x80
  · simp only [if_pos h1]
    intro b hb
    simp at hb
    omega
  · by_cases h2 : c.toNat < 0x800
    · simp only [if_neg h1, if_pos h2]
      intro b hb
      simp at hb
      rcases hb with hb | hb <;> omega
    · by_cases h3 : c.toNat < 0x10000
      · simp only [if_neg h1, if_neg h2, if_pos h3]
        intro b hb
        simp at hb
        rcases hb with hb | hb | hb <;> omega
      · simp only [if_neg h1, if_neg h2, if_neg h3]
        intro b hb
        simp at hb
        rcases hb with hb | hb | hb | hb <;> omega

theorem percentDecodeBytes_triple {h1 h2 : Char} {a b : Nat} (rest : List Char)
    (hh1 : hexVal h1 = some a) (hh2 : hexVal h2 = some b) :
    percentDecodeBytes ('%' :: h1 :: h2 :: rest) = (16 * a + b) :: percentDecodeBytes rest := by
  simp [percentDecodeBytes, hh1, hh2]

theorem percentDecodeBytes_cons {c : Char} (rest : List Char) (hc : c ≠ '%') :
    percentDecodeBytes (c :: rest) = utf8Bytes c ++ percentDecodeBytes rest := by
  cases rest with
  | nil => simp [percentDecodeBytes, hc]
  | cons c1 rest1 =>
    cases rest1 with
    | nil => simp [percentDecodeBytes, hc]
    | cons c2 rest2 => simp [percentDecodeBytes, hc]

theorem percent_roundtrip (bs : List Nat) (m : List Char) (h : ∀ b ∈ bs, b < 256) :
    percentDecodeBytes ((bs.map percentByteChars).flatten ++ m) = bs ++ percentDecodeBytes m := by
  induction bs with
  | nil => simp
  | cons b rest ih =>
    have hb : b < 256 := h b (by simp)
    have hdiv : b / 16 < 16 := by omega
    have hmod : b % 16 < 16 := by omega
    simp only [List.map_cons, List.flatten_cons, percentByteChars, List.append_assoc,
               List.cons_append, List.nil_append]
    rw [percentDecodeBytes_triple _ (hexRound _ hdiv) (hexRound _ hmod)]
    rw [ih (fun x hx => h x (by simp [hx]))]
    have : 16 * (b / 16) + b % 16 = b := by omega
    rw [this]

theorem utf8DecodeBytes_cons (b : Nat) (rest : List Nat) :
    utf8DecodeBytes (b :: rest) =
      (utf8Step b rest).1 :: utf8DecodeBytes (rest.drop (utf8Step b rest).2) := by
  simp [utf8DecodeBytes]

theorem utf8_decode_encode (c : Char) (bs : List Nat) :
    utf8DecodeBytes (utf8Bytes c ++ bs) = c :: utf8DecodeBytes bs := by
  have hv := char_toNat_valid c
  have hofn : Char.ofNat c.toNat = c := Char.ofNat_toNat c
  by_cases h1 : c.toNat < 0x80
  · have hbytes : utf8Bytes c = [c.toNat] := by
      unfold utf8Bytes
      simp [h1]
    rw [hbytes]
    simp only [List.cons_append, List.nil_append]
    rw [utf8DecodeBytes_cons]
    have hstep : utf8Step c.toNat bs = (c, 0) := by
      unfold utf8Step
      simp [h1, hofn]
    rw [hstep]
    simp
  · by_cases h2 : c.toNat < 0x800
    · have hbytes : utf8Bytes c = [0xC0 + c.toNat / 64, 0x80 + c.toNat % 64] := by
        unfold utf8Bytes
        simp [h1, h2]
      rw [hbytes]
      simp only [List.cons_append, List.nil_append]
      rw [utf8DecodeBytes_cons]
      have hstep : utf8Step (0xC0 + c.toNat / 64) ((0x80 + c.toNat % 64) :: bs) = (c, 1) := by
        unfold utf8Step
        have ha1 : ¬(0xC0 + c.toNat / 64 < 0x80) := by omega
        have ha2 : 0xC2 ≤ 0xC0 + c.toNat / 64 := by omega
        have ha3 : 0xC0 + c.toNat / 64 ≤ 0xDF := by omega
        have hcont : contByte (0x80 + c.toNat % 64) = true := by
          unfold contByte
          simp only [Bool.and_eq_true, decide_eq_true_eq]
          omega
        simp [ha1, ha2, ha3, hcont]
        rw [show c.toNat / 64 * 64 + c.toNat % 64 = c.toNat from by omega]
        exact hofn
      rw [hstep]
      simp
    · by_cases h3 : c.toNat < 0x10000
      · have hbytes : utf8Bytes c =
            [0xE0 + c.toNat / 4096, 0x80 + (c.toNat / 64) % 64, 0x80 + c.toNat % 64] := by
          unfold utf8Bytes
          simp [h1, h2, h3]
        rw [hbytes]
        simp only [List.cons_append, List.nil_append]
        rw [utf8DecodeBytes_cons]
        have hstep : utf8Step (0xE0 + c.toNat / 4096)
            ((0x80 + (c.toNat / 64) % 64) :: (0x80 + c.toNat % 64) :: bs) = (c, 2) := by
          unfold utf8Step
          have ha1 : ¬(0xE0 + c.toNat / 4096 < 0x80) := by omega
          have ha2 : ¬(0xE0 + c.toNat / 4096 ≤ 0xDF) := by omega
          have ha3 : 0xE0 ≤ 0xE0 + c.toNat / 4096 := by omega
          have ha4 : 0xE0 + c.toNat / 4096 ≤ 0xEF := by omega
          have hcont3 : cont3Ok (0xE0 + c.toNat / 4096) (0x80 + (c.toNat / 64) % 64) = true := by
            unfold cont3Ok contByte
            by_cases he0 : 0xE0 + c.toNat / 4096 = 0xE0
            · have hlt : c.toNat < 0x1000 := by omega
              rw [if_pos he0]
              simp only [Bool.and_eq_true, decide_eq_true_eq]
              omega
            · rw [if_neg he0]
              by_cases hed : 0xE0 + c.toNat / 4096 = 0xED
              · have hn1 : 0xD000 ≤ c.toNat := by omega
                have hn2 : c.toNat ≤ 0xD7FF := by
                  rcases hv with hv | hv <;> omega
                rw [if_pos hed]
                simp only [Bool.and_eq_true, decide_eq_true_eq]
                omega
              · rw [if_neg hed]
                simp only [Bool.and_eq_true, decide_eq_true_eq]
                omega
          have hcont : contByte (0x80 + c.toNat % 64) = true := by
            unfold contByte
            simp only [Bool.and_eq_true, decide_eq_true_eq]
            omega
          have harith : (0xE0 + c.toNat / 4096 - 0xE0) * 4096 +
              (0x80 + (c.toNat / 64) % 64 - 0x80) * 64 + (0x80 + c.toNat % 64 - 0x80) = c.toNat := by
            omega
          simp [ha1, ha2, ha3, ha4, hcont3, hcont]
          rw [show c.toNat / 4096 * 4096 + c.toNat / 64 % 64 * 64 + c.toNat % 64 = c.toNat from by omega]
          exact hofn
        rw [hstep]
        simp
      · have h4 : c.toNat < 0x110000 := by rcases hv with hv | hv <;> omega
        have hbytes : utf8Bytes c =
            [0xF0 + c.toNat / 0x40000, 0x80 + (c.toNat / 4096) % 64,
             0x80 + (c.toNat / 64) % 64, 0x80 + c.toNat % 64] := by
          unfold utf8Bytes
          simp [h1, h2, h3]
        rw [hbytes]
        simp only [List.cons_append, List.nil_append]
        rw [utf8DecodeBytes_cons]
        have hstep : utf8Step (0xF0 + c.toNat / 0x40000)
            ((0x80 + (c.toNat / 4096) % 64) :: (0x80 + (c.toNat / 64) % 64) ::
             (0x80 + c.toNat % 64) :: bs) = (c, 3) := by
          unfold utf8Step
          have ha1 : ¬(0xF0 + c.toNat / 0x40000 < 0x80) := by omega
          have ha2 : ¬(0xF0 + c.toNat / 0x40000 ≤ 0xDF) := by omega
          have ha3 : ¬(0xF0 + c.toNat / 0x40000 ≤ 0xEF) := by omega
          have ha4 : 0xF0 ≤ 0xF0 + c.toNat / 0x40000 := by omega
          have ha5 : 0xF0 + c.toNat / 0x40000 ≤ 0xF4 := by omega
          have hcont4 : cont4Ok (0xF0 + c.toNat / 0x40000) (0x80 + (c.toNat / 4096) % 64) = true := by
            unfold cont4Ok contByte
            by_cases hf0 : 0xF0 + c.toNat / 0x40000 = 0xF0
            · have hlt : c.toNat < 0x40000 := by omega
              rw [if_pos hf0]
              simp only [Bool.and_eq_true, decide_eq_true_eq]
              omega
            · rw [if_neg hf0]
              by_cases hf4 : 0xF0 + c.toNat / 0x40000 = 0xF4
              · have hn1 : 0x100000 ≤ c.toNat := by omega
                rw [if_pos hf4]
                simp only [Bool.and_eq_true, decide_eq_true_eq]
                omega
              · rw [if_neg hf4]
                simp only [Bool.and_eq_true, decide_eq_true_eq]
                omega
          have hcont2 : contByte (0x80 + (c.toNat / 64) % 64) = true := by
            unfold contByte
            simp only [Bool.and_eq_true, decide_eq_true_eq]
            omega
          have hcont : contByte (0x80 + c.toNat % 64) = true := by
            unfold contByte
            simp only [Bool.and_eq_true, decide_eq_true_eq]
            omega
          have harith : (0xF0 + c.toNat / 0x40000 - 0xF0) * 0x40000 +
              (0x80 + (c.toNat / 4096) % 64 - 0x80) * 4096 +
              (0x80 + (c.toNat / 64) % 64 - 0x80) * 64 + (0x80 + c.toNat % 64 - 0x80) = c.toNat := by
            omega
          simp [ha1, ha2, ha3, ha4, ha5, hcont4, hcont2, hcont]
          rw [show c.toNat / 262144 * 262144 + c.toNat / 4096 % 64 * 4096 + c.toNat / 64 % 64 * 64 + c.toNat % 64 = c.toNat from by omega]
          exact hofn
        rw [hstep]
        simp

theorem map_eq_self_of {α : Type} {l : List α} {f : α → α} (h : ∀ x ∈ l, f x = x) :
    l.map f = l := by
  induction l with
  | nil => simp
  | cons c rest ih =>
    simp only [List.map_cons, h c (by simp)]
    rw [ih (fun x hx => h x (by simp [hx]))]

theorem formSafeChar_ne {c : Char} (h : formSafeChar c = true) :
    c ≠ '+' ∧ c ≠ '%' ∧ c ≠ ' ' ∧ c ≠ '&' ∧ c ≠ '=' ∧ c ≠ '#' := by
  refine ⟨?_, ?_, ?_, ?_, ?_, ?_⟩ <;> (intro hc; subst hc; revert h; decide)

theorem plusToSpace_of_ne {c : Char} (h : c ≠ '+') : plusToSpace c = c := by
  simp [plusToSpace, h]

theorem percentByteChars_no_plus (b : Nat) (hb : b < 256) :
    ∀ x ∈ percentByteChars b, x ≠ '+' := by
  intro x hx
  have hdiv : b / 16 < 16 := by omega
  have hmod : b % 16 < 16 := by omega
  simp [percentByteChars] at hx
  rcases hx with hx | hx | hx
  · subst hx; decide
  · subst hx; exact (hexDigitUpper_ne _ hdiv).1
  · subst hx; exact (hexDigitUpper_ne _ hmod).1

theorem decode_formEncodeChar (c : Char) (m : List Char) :
    percentDecodeBytes ((formEncodeChar c).map plusToSpace ++ m) =
      utf8Bytes c ++ percentDecodeBytes m := by
  by_cases hsp : c = ' '
  · subst hsp
    rw [show (formEncodeChar ' ').map plusToSpace = [' '] from by decide]
    rw [show ([' '] ++ m) = ' ' :: m from rfl]
    rw [percentDecodeBytes_cons m (by decide)]
  · by_cases hsafe : formSafeChar c = true
    · have hne := formSafeChar_ne hsafe
      have henc : formEncodeChar c = [c] := by
        unfold formEncodeChar
        rw [if_neg hsp, if_pos hsafe]
      rw [henc]
      rw [show List.map plusToSpace [c] = [c] from by
            rw [List.map_cons, List.map_nil, plusToSpace_of_ne hne.1]]
      rw [show ([c] ++ m) = c :: m from rfl]
      rw [percentDecodeBytes_cons m hne.2.1]
    · have henc : formEncodeChar c = ((utf8Bytes c).map percentByteChars).flatten := by
        unfold formEncodeChar
        rw [if_neg hsp, if_neg hsafe]
      rw [henc]
      have hplus : ((utf8Bytes c).map percentByteChars).flatten.map plusToSpace =
          ((utf8Bytes c).map percentByteChars).flatten := by
        apply map_eq_self_of
        intro x hx
        simp only [List.mem_flatten, List.mem_map] at hx
        obtain ⟨grp, ⟨b, hb, hgrp⟩, hxg⟩ := hx
        subst hgrp
        exact plusToSpace_of_ne (percentByteChars_no_plus b (utf8Bytes_lt c b hb) x hxg)
      rw [hplus]
      exact percent_roundtrip (utf8Bytes c) m (utf8Bytes_lt c)

theorem decode_formEncodeList_bytes (l : List Char) :
    percentDecodeBytes ((formEncodeList l).map plusToSpace) = (l.map utf8Bytes).flatten := by
  induction l with
  | nil => simp [formEncodeList, percentDecodeBytes]
  | cons c rest ih =>
    have : formEncodeList (c :: rest) = formEncodeChar c ++ formEncodeList rest := by
      simp [formEncodeList]
    rw [this, List.map_append, decode_formEncodeChar, ih]
    simp

theorem utf8_decode_flatten (l : List Char) :
    utf8DecodeBytes ((l.map utf8Bytes).flatten) = l := by
  induction l with
  | nil => simp [utf8DecodeBytes]
  | cons c rest ih =>
    simp only [List.map_cons, List.flatten_cons]
    rw [utf8_decode_encode, ih]

theorem decodeComponent_formEncodeList (l : List Char) :
    decodeComponent (formEncodeList l) = String.mk l := by
  unfold decodeComponent
  rw [decode_formEncodeList_bytes, utf8_decode_flatten]

/-- Characters the form serializer can emit. -/
theorem formEncodeChar_chars (c : Char) :
    ∀ x ∈ formEncodeChar c, x ≠ '&' ∧ x ≠ '=' ∧ x ≠ '#' := by
  intro x hx
  by_cases hsp : c = ' '
  · subst hsp
    simp [formEncodeChar] at hx
    subst hx
    refine ⟨by decide, by decide, by decide⟩
  · by_cases hsafe : formSafeChar c = true
    · have henc : formEncodeChar c = [c] := by
        unfold formEncodeChar
        rw [if_neg hsp, if_pos hsafe]
      rw [henc] at hx
      simp at hx
      subst hx
      have hne := formSafeChar_ne hsafe
      exact ⟨hne.2.2.2.1, hne.2.2.2.2.1, hne.2.2.2.2.2⟩
    · have henc : formEncodeChar c = ((utf8Bytes c).map percentByteChars).flatten := by
        unfold formEncodeChar
        rw [if_neg hsp, if_neg hsafe]
      rw [henc] at hx
      simp only [List.mem_flatten, List.mem_map] at hx
      obtain ⟨grp, ⟨b, hb, hgrp⟩, hxg⟩ := hx
      subst hgrp
      have hblt := utf8Bytes_lt c b hb
      have hdiv : b / 16 < 16 := by omega
      have hmod : b % 16 < 16 := by omega
      simp [percentByteChars] at hxg
      rcases hxg with hxg | hxg | hxg
      · subst hxg; refine ⟨by decide, by decide, by decide⟩
      · subst hxg
        exact ⟨(hexDigitUpper_ne _ hdiv).2.2.1, (hexDigitUpper_ne _ hdiv).2.2.2.1,
               (hexDigitUpper_ne _ hdiv).2.2.2.2⟩
      · subst hxg
        exact ⟨(hexDigitUpper_ne _ hmod).2.2.1, (hexDigitUpper_ne _ hmod).2.2.2.1,
               (hexDigitUpper_ne _ hmod).2.2.2.2⟩

theorem formEncodeList_chars (l : List Char) :
    ∀ x ∈ formEncodeList l, x ≠ '&' ∧ x ≠ '=' ∧ x ≠ '#' := by
  intro x hx
  simp only [formEncodeList, List.mem_flatten, List.mem_map] at hx
  obtain ⟨grp, ⟨c, hc, hgrp⟩, hxg⟩ := hx
  subst hgrp
  exact formEncodeChar_chars c x hxg

/-- One serialized segment of an entry. -/
def encSegment (kv : String × String) : List Char :=
  formEncodeList kv.1.data ++ '=' :: formEncodeList kv.2.data

theorem encSegment_chars (kv : String × String) :
    ∀ x ∈ encSegment kv, x ≠ '&' ∧ x ≠ '#' := by
  intro x hx
  simp only [encSegment, List.mem_append, List.mem_cons] at hx
  rcases hx with hx | hx | hx
  · exact ⟨(formEncodeList_chars _ x hx).1, (formEncodeList_chars _ x hx).2.2⟩
  · subst hx; exact ⟨by decide, by decide⟩
  · exact ⟨(formEncodeList_chars _ x hx).1, (formEncodeList_chars _ x hx).2.2⟩

theorem encSegment_ne_nil (kv : String × String) : encSegment kv ≠ [] := by
  simp only [encSegment]
  intro h
  have := congrArg List.length h
  simp at this

theorem splitOnAmp_no_amp (l : List Char) (h : ∀ x ∈ l, x ≠ '&') :
    splitOnAmp l = [l] := by
  induction l with
  | nil => simp [splitOnAmp]
  | cons c rest ih =>
    have hc : c ≠ '&' := h c (by simp)
    have hr := ih (fun x hx => h x (by simp [hx]))
    simp [splitOnAmp, hc, hr]

theorem splitOnAmp_append (s t : List Char) (h : ∀ x ∈ s, x ≠ '&') :
    splitOnAmp (s ++ '&' :: t) = s :: splitOnAmp t := by
  induction s with
  | nil =>
    simp only [List.nil_append]
    cases ht : splitOnAmp t with
    | nil => simp [splitOnAmp, ht]
    | cons a b => simp [splitOnAmp, ht]
  | cons c rest ih =>
    have hc : c ≠ '&' := h c (by simp)
    have hr := ih (fun x hx => h x (by simp [hx]))
    simp [splitOnAmp, hc, hr]

theorem splitOnAmp_joinWithAmp (segs : List (List Char)) (hne : segs ≠ [])
    (h : ∀ seg ∈ segs, ∀ x ∈ seg, x ≠ '&') :
    splitOnAmp (joinWithAmp segs) = segs := by
  induction segs with
  | nil => exact absurd rfl hne
  | cons seg rest ih =>
    cases rest with
    | nil =>
      show splitOnAmp (joinWithAmp [seg]) = [seg]
      rw [show joinWithAmp [seg] = seg from rfl]
      exact splitOnAmp_no_amp seg (h seg (by simp))
    | cons seg2 rest2 =>
      rw [show joinWithAmp (seg :: seg2 :: rest2) = seg ++ '&' :: joinWithAmp (seg2 :: rest2) from rfl]
      rw [splitOnAmp_append seg _ (h seg (by simp))]
      rw [ih (by simp) (fun s hs x hx => h s (by simp [hs]) x hx)]

/-! ### `breakAt` -/

theorem breakAt_all_false (stop : Char → Bool) (l : List Char)
    (h : ∀ x ∈ l, stop x = false) : breakAt stop l = (l, []) := by
  induction l with
  | nil => simp [breakAt]
  | cons c rest ih =>
    have hc : stop c = false := h c (by simp)
    simp [breakAt, hc, ih (fun x hx => h x (by simp [hx]))]

theorem breakAt_append (stop : Char → Bool) (a : List Char) (c : Char) (b : List Char)
    (h : ∀ x ∈ a, stop x = false) (hc : stop c = true) :
    breakAt stop (a ++ c :: b) = (a, c :: b) := by
  induction a with
  | nil => simp [breakAt, hc]
  | cons x rest ih =>
    have hx : stop x = false := h x (by simp)
    simp [breakAt, hx, hc, ih (fun y hy => h y (by simp [hy]))]

theorem takeWhile_all (p : Char → Bool) (l : List Char) (h : ∀ x ∈ l, p x = true) :
    l.takeWhile p = l := by
  induction l with
  | nil => simp
  | cons c rest ih =>
    have hc : p c = true := h c (by simp)
    simp [List.takeWhile_cons, hc, ih (fun x hx => h x (by simp [hx]))]

theorem parseSegment_encSegment (kv : String × String) :
    parseSegment (encSegment kv) = kv := by
  unfold parseSegment encSegment
  rw [breakAt_append (fun c => c = '=') _ '=' _
        (fun x hx => by simpa using (formEncodeList_chars _ x hx).2.1) (by simp)]
  show (decodeComponent (formEncodeList kv.1.data),
        decodeComponent (formEncodeList kv.2.data)) = kv
  rw [decodeComponent_formEncodeList, decodeComponent_formEncodeList]

theorem parseQueryList_serialize (entries : Params) (hne : entries ≠ []) :
    parseQueryList (serializeQueryList entries) = entries := by
  unfold parseQueryList serializeQueryList
  have hmap : entries.map (fun kv => formEncodeList kv.1.data ++ '=' :: formEncodeList kv.2.data) =
      entries.map encSegment := by
    simp [encSegment]
  rw [hmap]
  rw [splitOnAmp_joinWithAmp (entries.map encSegment) (by simpa using hne)
        (by intro seg hs x hx
            simp only [List.mem_map] at hs
            obtain ⟨kv, _, hseg⟩ := hs
            subst hseg
            exact (encSegment_chars kv x hx).1)]
  rw [List.filterMap_map]
  have : ∀ kv ∈ entries,
      (fun seg => if seg.isEmpty then none else some (parseSegment seg)) (encSegment kv) =
        some kv := by
    intro kv _
    have hne2 : (encSegment kv).isEmpty = false := by
      cases hh : encSegment kv with
      | nil => exact absurd hh (encSegment_ne_nil kv)
      | cons a b => simp
    simp only [Function.comp, hne2, Bool.false_eq_true, if_false]
    rw [parseSegment_encSegment]
  calc entries.filterMap ((fun seg => if seg.isEmpty then none else some (parseSegment seg)) ∘ encSegment)
      = entries.filterMap some := by
        apply List.filterMap_congr
        intro kv hkv
        simpa using this kv hkv
    _ = entries := List.filterMap_some entries

/-! ### Canonical entry lists and re-validation -/

theorem foldl_insertParam_fresh (entries : Params) (acc : Params)
    (hnd : (keysOf (acc ++ entries)).Nodup) :
    entries.foldl (fun a kv => insertParam a kv.1 kv.2) acc = acc ++ entries := by
  induction entries generalizing acc with
  | nil => simp
  | cons kv rest ih =>
    obtain ⟨k, v⟩ := kv
    have hfresh : lookupParam k acc = none := by
      rw [lookupParam_eq_none_iff]
      intro hmem
      have : ¬(keysOf (acc ++ (k, v) :: rest)).Nodup := by
        simp only [keysOf, List.map_append, List.map_cons]
        intro hn
        have hd := (List.nodup_append.mp hn).2.2
        exact hd hmem (by simp)
      exact this hnd
    simp only [List.foldl_cons]
    rw [insertParam_fresh v hfresh]
    have hnd2 : (keysOf ((acc ++ [(k, v)]) ++ rest)).Nodup := by
      have : (acc ++ [(k, v)]) ++ rest = acc ++ (k, v) :: rest := by simp
      rw [this]
      exact hnd
    rw [ih (acc ++ [(k, v)]) hnd2]
    simp

theorem lookupParam_cons (k k0 v : String) (rest : Params) :
    lookupParam k ((k0, v) :: rest) = if k0 = k then some v else lookupParam k rest := rfl

theorem contains_false_iff (l : List String) (a : String) :
    l.contains a = false ↔ a ∉ l := by
  rw [← Bool.not_eq_true, not_iff_not]
  exact List.elem_iff

theorem lookup_filterMap_keys (ks : List String) (m : Params) (k : String) (hnd : ks.Nodup) :
    lookupParam k (ks.filterMap (fun j =>
      match lookupParam j m with
      | some v => if v != "" then some (j, v) else none
      | none => none)) =
      (if k ∈ ks then
        (match lookupParam k m with
         | some v => if v != "" then some v else none
         | none => none)
       else none) := by
  induction ks with
  | nil => simp [lookupParam]
  | cons k0 rest ih =>
    simp only [List.nodup_cons] at hnd
    have hrest := ih hnd.2
    by_cases hk : k0 = k
    · subst hk
      rw [if_pos (List.mem_cons_self k0 rest)]
      rw [if_neg hnd.1] at hrest
      cases hm : lookupParam k0 m with
      | none =>
        simp only [List.filterMap_cons, hm]
        rw [hrest]
      | some v =>
        by_cases hv : (v != "") = true
        · simp only [List.filterMap_cons, hm, hv, if_true]
          simp [lookupParam, hv]
        · simp only [Bool.not_eq_true] at hv
          simp only [List.filterMap_cons, hm, hv, Bool.false_eq_true, if_false]
          rw [hrest]
    · have hmemiff : (k ∈ k0 :: rest) ↔ (k ∈ rest) := by
        simp only [List.mem_cons]
        constructor
        · rintro (h | h)
          · exact absurd h.symm hk
          · exact h
        · exact Or.inr
      have hsame : (if k ∈ k0 :: rest then
          (match lookupParam k m with
           | some v => if v != "" then some v else none
           | none => none)
         else none) =
          (if k ∈ rest then
          (match lookupParam k m with
           | some v => if v != "" then some v else none
           | none => none)
         else none) := by
        by_cases hmem : k ∈ rest
        · rw [if_pos hmem, if_pos (hmemiff.mpr hmem)]
        · rw [if_neg hmem, if_neg (fun h => hmem (hmemiff.mp h))]
      rw [hsame, ← hrest]
      cases hm : lookupParam k0 m with
      | none => simp only [List.filterMap_cons, hm]
      | some v =>
        by_cases hv : (v != "") = true
        · simp only [List.filterMap_cons, hm, hv, if_true]
          rw [lookupParam_cons, if_neg hk]
        · simp only [Bool.not_eq_true] at hv
          simp only [List.filterMap_cons, hm, hv, Bool.false_eq_true, if_false]

theorem lookup_filter (m : Params) (pr : String × String → Bool) (k : String)
    (hnd : (keysOf m).Nodup) :
    lookupParam k (m.filter pr) =
      (match lookupParam k m with
       | some v => if pr (k, v) then some v else none
       | none => none) := by
  induction m with
  | nil => simp [lookupParam]
  | cons kv rest ih =>
    obtain ⟨k0, v0⟩ := kv
    simp only [keysOf, List.map_cons, List.nodup_cons] at hnd
    by_cases hk : k0 = k
    · subst hk
      have hrest : lookupParam k0 rest = none :=
        (lookupParam_eq_none_iff k0 rest).mpr hnd.1
      by_cases hp : pr (k0, v0) = true
      · simp [List.filter_cons, hp, lookupParam]
      · simp only [List.filter_cons, hp, Bool.false_eq_true, if_false]
        rw [ih hnd.2, hrest]
        simp [lookupParam, hp]
    · by_cases hp : pr (k0, v0) = true
      · simp only [List.filter_cons, hp, if_true]
        simp only [lookupParam, hk, if_neg hk]
        exact ih hnd.2
      · simp only [List.filter_cons, hp, Bool.false_eq_true, if_false]
        rw [ih hnd.2]
        simp [lookupParam, hk]

theorem lookup_canonicalEntries (m : Params) (hnd : (keysOf m).Nodup)
    (hvals : ∀ kt ∈ m, kt.2 ≠ "") (k : String) :
    lookupParam k (canonicalEntries m) = lookupParam k m := by
  unfold canonicalEntries
  rw [lookupParam_append]
  rw [lookup_filterMap_keys orderedKeys m k (by decide)]
  rw [lookup_filter m _ k hnd]
  by_cases hmem : k ∈ orderedKeys
  · rw [if_pos hmem]
    cases hm : lookupParam k m with
    | none => simp
    | some v =>
      have hv : v ≠ "" := hvals (k, v) (lookupParam_mem hm)
      simp [hv]
  · rw [if_neg hmem]
    cases hm : lookupParam k m with
    | none => simp
    | some v =>
      have hv : v ≠ "" := hvals (k, v) (lookupParam_mem hm)
      have hcont : orderedKeys.contains k = false := (contains_false_iff _ _).mpr hmem
      simp [hv, hcont]
      exact hmem

theorem mem_canonicalEntries {m : Params} {x : String × String}
    (h : x ∈ canonicalEntries m) : x ∈ m := by
  unfold canonicalEntries at h
  rcases List.mem_append.mp h with h1 | h1
  · simp only [List.mem_filterMap] at h1
    obtain ⟨j, _, hj⟩ := h1
    cases hm : lookupParam j m with
    | none => rw [hm] at hj; simp at hj
    | some v =>
      rw [hm] at hj
      by_cases hv : v = ""
      · subst hv
        simp at hj
      · simp only [show (v != "") = true from by simp [hv], if_true] at hj
        rw [← Option.some_inj.mp hj]
        exact lookupParam_mem hm
  · exact (List.mem_filter.mp h1).1

theorem keys_filterMap_sublist (ks : List String) (m : Params) :
    (keysOf (ks.filterMap (fun j =>
      match lookupParam j m with
      | some v => if v != "" then some (j, v) else none
      | none => none))).Sublist ks := by
  induction ks with
  | nil => simp [keysOf]
  | cons k0 rest ih =>
    cases hm : lookupParam k0 m with
    | none =>
      simp only [List.filterMap_cons, hm]
      exact ih.cons k0
    | some v =>
      by_cases hv : (v != "") = true
      · simp only [List.filterMap_cons, hm, hv, if_true, keysOf, List.map_cons]
        exact ih.cons₂ k0
      · simp only [Bool.not_eq_true] at hv
        simp only [List.filterMap_cons, hm, hv, Bool.false_eq_true, if_false]
        exact ih.cons k0

theorem canonical_keys_nodup (m : Params) (hnd : (keysOf m).Nodup) :
    (keysOf (canonicalEntries m)).Nodup := by
  unfold canonicalEntries
  simp only [keysOf, List.map_append]
  apply List.Nodup.append
  · exact List.Nodup.sublist (keys_filterMap_sublist orderedKeys m) (by decide)
  · exact List.Nodup.sublist (List.Sublist.map Prod.fst (List.filter_sublist m)) hnd
  · rw [List.disjoint_left]
    intro a ha hb
    have hord : a ∈ orderedKeys :=
      (keys_filterMap_sublist orderedKeys m).subset ha
    simp only [List.mem_map] at hb
    obtain ⟨kv, hkv, hfst⟩ := hb
    have := (List.mem_filter.mp hkv).2
    simp only [Bool.and_eq_true, Bool.not_eq_eq_eq_not, Bool.not_true] at this
    have hnc : orderedKeys.contains kv.1 = false := this.1
    rw [hfst] at hnc
    exact (contains_false_iff _ _).mp hnc hord

theorem valid_parts (p : Params) (hv : (validateUpiParams p).isValid = true) :
    requiredErrors p = [] ∧ ∀ kv ∈ p, entryRuleError kv.1 kv.2 = none := by
  have hvv := hv
  rw [validate_isValid] at hvv
  have herr : (validateUpiParams p).errors = [] := by
    cases hh : (validateUpiParams p).errors with
    | nil => rfl
    | cons x xs => rw [hh] at hvv; simp at hvv
  rw [validate_errors] at herr
  have hsplit := List.append_eq_nil.mp herr
  refine ⟨hsplit.1, fun kv hkv => ?_⟩
  have := List.filterMap_eq_nil_iff.mp hsplit.2 kv hkv
  simpa using this

theorem valid_req_lookup (p : Params) (hreq : requiredErrors p = []) :
    (∃ v, lookupParam "pa" p = some v ∧ jsTrim v ≠ "") ∧
    (∃ v, lookupParam "pn" p = some v ∧ jsTrim v ≠ "") := by
  unfold requiredErrors at hreq
  have hsplit := List.append_eq_nil.mp hreq
  constructor
  · cases hl : lookupParam "pa" p with
    | none => rw [hl] at hsplit; simp at hsplit
    | some v =>
      rw [hl] at hsplit
      by_cases ht : jsTrim v = ""
      · simp [ht] at hsplit
      · exact ⟨v, rfl, ht⟩
  · cases hl : lookupParam "pn" p with
    | none => rw [hl] at hsplit; simp at hsplit
    | some v =>
      rw [hl] at hsplit
      by_cases ht : jsTrim v = ""
      · simp [ht] at hsplit
      · exact ⟨v, rfl, ht⟩

theorem valid_baseLookup_req (p : Params) (hv : (validateUpiParams p).isValid = true)
    {k v : String} (hk : lookupParam k p = some v) (ht : jsTrim v ≠ "") :
    baseLookup p k = some (jsTrim v) := by
  have hparts := valid_parts p hv
  have herr : entryRuleError k v = none := hparts.2 (k, v) (lookupParam_mem hk)
  unfold baseLookup
  rw [hk]
  have hpass : entryPasses k v = true := by
    unfold entryPasses
    simp [ht, herr]
  simp [hpass]

theorem valid_norm_pa (p : Params) (hnd : (keysOf p).Nodup)
    (hv : (validateUpiParams p).isValid = true) :
    ∃ t, lookupParam "pa" (validateUpiParams p).normalizedParams = some t := by
  obtain ⟨⟨v, hl, ht⟩, _⟩ := valid_req_lookup p (valid_parts p hv).1
  refine ⟨jsTrim v, ?_⟩
  rw [validate_norm_lookup p hnd "pa" (by decide)]
  exact valid_baseLookup_req p hv hl ht

theorem valid_norm_pn (p : Params) (hnd : (keysOf p).Nodup)
    (hv : (validateUpiParams p).isValid = true) :
    ∃ t, lookupParam "pn" (validateUpiParams p).normalizedParams = some t := by
  obtain ⟨_, ⟨v, hl, ht⟩⟩ := valid_req_lookup p (valid_parts p hv).1
  refine ⟨jsTrim v, ?_⟩
  rw [validate_norm_lookup p hnd "pn" (by decide)]
  exact valid_baseLookup_req p hv hl ht

theorem norm_am_implies_cu (p : Params) (hnd : (keysOf p).Nodup) :
    (lookupParam "am" (validateUpiParams p).normalizedParams).isSome →
      (lookupParam "cu" (validateUpiParams p).normalizedParams).isSome := by
  intro ham
  rw [validate_norm_lookup p hnd "am" (by decide)] at ham
  rw [validate_norm_lookup_cu p hnd]
  cases hcu : baseLookup p "cu" with
  | some v => simp [hcu]
  | none => simp [hcu, ham]

theorem validateLoop_good_entries (e : Params) (errs : List String) (acc : Params)
    (hgood : ∀ kt ∈ e, goodEntry kt.1 kt.2)
    (hnd : (keysOf (acc ++ e)).Nodup) :
    validateLoop e errs acc = (errs, acc ++ e) := by
  induction e generalizing acc with
  | nil => simp [validateLoop]
  | cons kt rest ih =>
    obtain ⟨k, t⟩ := kt
    obtain ⟨htne, htfix, hterr⟩ := hgood (k, t) (by simp)
    have htrim_ne : jsTrim t ≠ "" := by rw [htfix]; exact htne
    have hfresh : lookupParam k acc = none := by
      rw [lookupParam_eq_none_iff]
      intro hmem
      have hn : ¬(keysOf (acc ++ (k, t) :: rest)).Nodup := by
        simp only [keysOf, List.map_append, List.map_cons]
        intro hn2
        exact (List.nodup_append.mp hn2).2.2 hmem (by simp)
      exact hn hnd
    have hins : insertParam acc k (jsTrim t) = acc ++ [(k, t)] := by
      rw [htfix]
      exact insertParam_fresh t hfresh
    have hnd2 : (keysOf ((acc ++ [(k, t)]) ++ rest)).Nodup := by
      have heq : (acc ++ [(k, t)]) ++ rest = acc ++ (k, t) :: rest := by simp
      rw [heq]
      exact hnd
    have hrec := ih (acc ++ [(k, t)]) (fun kt hkt => hgood kt (by simp [hkt])) hnd2
    cases hr : VALIDATION_RULES k with
    | none =>
      rw [validateLoop_cons_pass_norule rest errs acc htne htrim_ne hr, hins, hrec]
      simp
    | some rule =>
      have hfe : firstRuleError rule k (jsTrim t) = none := by
        have h2 := hterr
        unfold entryRuleError at h2
        rw [if_neg htrim_ne, hr] at h2
        exact h2
      rw [validateLoop_cons_pass_rule rest errs acc htne htrim_ne hr hfe, hins, hrec]
      simp

theorem validate_fixpoint (e : Params)
    (hgood : ∀ kt ∈ e, goodEntry kt.1 kt.2)
    (hnd : (keysOf e).Nodup)
    (hpa : ∃ t, lookupParam "pa" e = some t)
    (hpn : ∃ t, lookupParam "pn" e = some t)
    (hamcu : (lookupParam "am" e).isSome → (lookupParam "cu" e).isSome) :
    validateUpiParams e = ⟨true, [], e⟩ := by
  obtain ⟨tpa, hlpa⟩ := hpa
  obtain ⟨tpn, hlpn⟩ := hpn
  have gpa := hgood _ (lookupParam_mem hlpa)
  have gpn := hgood _ (lookupParam_mem hlpn)
  have gpa2 : jsTrim tpa = tpa := gpa.2.1
  have gpa1 : tpa ≠ "" := gpa.1
  have gpn2 : jsTrim tpn = tpn := gpn.2.1
  have gpn1 : tpn ≠ "" := gpn.1
  have hreq : requiredErrors e = [] := by
    unfold requiredErrors
    rw [hlpa, hlpn]
    simp [gpa2, gpa1, gpn2, gpn1]
  have hloop : validateLoop e (requiredErrors e) [] = (requiredErrors e, e) := by
    have := validateLoop_good_entries e (requiredErrors e) [] hgood (by simpa using hnd)
    simpa using this
  have hcond : (truthyAt (validateLoop e (requiredErrors e) []).2 "am" &&
      !truthyAt (validateLoop e (requiredErrors e) []).2 "cu") = false := by
    rw [hloop]
    show (truthyAt e "am" && !truthyAt e "cu") = false
    cases ham : lookupParam "am" e with
    | none => simp [truthyAt, ham]
    | some t =>
      have hcu := hamcu (by simp [ham])
      cases hcuv : lookupParam "cu" e with
      | none => rw [hcuv] at hcu; simp at hcu
      | some t2 =>
        have g2 := hgood _ (lookupParam_mem hcuv)
        simp [truthyAt, ham, hcuv, g2.1]
  rw [hreq] at hloop hcond
  rw [hloop] at hcond
  unfold validateUpiParams
  simp [hreq, hloop, hcond]

/-! ### Parsing the canonical URI -/

theorem joinWithAmp_chars (P : Char → Prop) (segs : List (List Char))
    (h : ∀ seg ∈ segs, ∀ x ∈ seg, P x) (hamp : P '&') :
    ∀ x ∈ joinWithAmp segs, P x := by
  induction segs with
  | nil => simp [joinWithAmp]
  | cons seg rest ih =>
    cases rest with
    | nil => simpa [joinWithAmp] using h seg (by simp)
    | cons s2 r2 =>
      intro x hx
      rw [show joinWithAmp (seg :: s2 :: r2) = seg ++ '&' :: joinWithAmp (s2 :: r2) from rfl] at hx
      rcases List.mem_append.mp hx with h1 | h1
      · exact h seg (by simp) x h1
      · rcases List.mem_cons.mp h1 with h2 | h2
        · subst h2; exact hamp
        · exact ih (fun s hs => h s (by simp [hs])) x h2

theorem serializeQueryList_eq_join (entries : Params) :
    serializeQueryList entries = joinWithAmp (entries.map encSegment) := rfl

theorem serializeQueryList_no_hash (entries : Params) :
    ∀ x ∈ serializeQueryList entries, x ≠ '#' := by
  rw [serializeQueryList_eq_join]
  apply joinWithAmp_chars
  · intro seg hs x hx
    simp only [List.mem_map] at hs
    obtain ⟨kv, _, hseg⟩ := hs
    subst hseg
    exact (encSegment_chars kv x hx).2
  · decide

theorem serializeQueryList_ne_nil (entries : Params) (hne : entries ≠ []) :
    serializeQueryList entries ≠ [] := by
  rw [serializeQueryList_eq_join]
  cases entries with
  | nil => exact absurd rfl hne
  | cons kv rest =>
    cases hrest : rest.map encSegment with
    | nil =>
      rw [show (kv :: rest).map encSegment = encSegment kv :: rest.map encSegment from rfl, hrest]
      exact encSegment_ne_nil kv
    | cons s2 r2 =>
      rw [show (kv :: rest).map encSegment = encSegment kv :: rest.map encSegment from rfl, hrest]
      rw [show joinWithAmp (encSegment kv :: s2 :: r2) =
            encSegment kv ++ '&' :: joinWithAmp (s2 :: r2) from rfl]
      intro h
      rcases List.append_eq_nil.mp h with ⟨_, h2⟩
      simp at h2

theorem parseURLModel_gen (act q : List Char)
    (hact2 : ∀ x ∈ act, ((x = '/' : Bool) || x = '?' || x = '#') = false)
    (hact3 : ∀ x ∈ act, ((x = ':' : Bool)) = false)
    (hact4 : ∀ x ∈ act, forbiddenHostChar x = false)
    (hq : ∀ x ∈ q, x ≠ '#') :
    parseURLModel (String.mk ('u' :: 'p' :: 'i' :: ':' :: '/' :: '/' :: (act ++ '?' :: q))) =
      some ⟨"upi", String.mk act, String.mk q⟩ := by
  have h1 : breakAt (fun c => c = ':')
      ('u' :: 'p' :: 'i' :: ':' :: '/' :: '/' :: (act ++ '?' :: q)) =
      (['u', 'p', 'i'], ':' :: '/' :: '/' :: (act ++ '?' :: q)) := by
    rw [show ('u' :: 'p' :: 'i' :: ':' :: '/' :: '/' :: (act ++ '?' :: q)) =
          ['u', 'p', 'i'] ++ ':' :: ('/' :: '/' :: (act ++ '?' :: q)) from rfl]
    exact breakAt_append _ _ _ _ (by decide) (by decide)
  have h2 : breakAt (fun c => c = '/' || c = '?' || c = '#') (act ++ '?' :: q) =
      (act, '?' :: q) :=
    breakAt_append _ _ _ _ hact2 (by decide)
  have h3 : breakAt (fun c => c = ':') act = (act, []) :=
    breakAt_all_false _ act hact3
  have h4 : act.any forbiddenHostChar = false := by
    rw [List.any_eq_false]
    intro x hx
    simp [hact4 x hx]
  have htake : q.takeWhile (fun c => c != '#') = q :=
    takeWhile_all _ q (fun x hx => by simpa using hq x hx)
  simp only [parseURLModel, h1]
  rw [if_neg (by decide), if_neg (by decide), if_neg (by decide)]
  simp only [h2, h3, h4, Bool.false_eq_true, if_false, Bool.not_true]
  have hsch : (String.mk (['u', 'p', 'i'].map Char.toLower)) = "upi" := by decide
  simp [queryOfRemainder, htake, hsch]

theorem parseURLModel_canonical (a : UpiAction) (q : List Char) (hq : ∀ x ∈ q, x ≠ '#') :
    parseURLModel (String.mk ('u' :: 'p' :: 'i' :: ':' :: '/' :: '/' :: (a.str.data ++ '?' :: q))) =
      some ⟨"upi", a.str, String.mk q⟩ := by
  cases a with
  | pay =>
    exact parseURLModel_gen ('p' :: 'a' :: 'y' :: []) q (by decide) (by decide) (by decide) hq
  | mandate =>
    exact parseURLModel_gen ('m' :: 'a' :: 'n' :: 'd' :: 'a' :: 't' :: 'e' :: []) q
      (by decide) (by decide) (by decide) hq

theorem canonicalEntries_cons (m : Params) {t : String}
    (hpa : lookupParam "pa" m = some t) (ht : t ≠ "") :
    ∃ rest2, canonicalEntries m = ("pa", t) :: rest2 := by
  unfold canonicalEntries
  rw [show orderedKeys =
        "pa" :: ["pn", "am", "cu", "tr", "tn", "url", "mode", "orgid", "mc", "tid", "sign"]
      from rfl]
  rw [List.filterMap_cons]
  rw [hpa]
  simp only [show (t != "") = true from by simp [ht], if_true]
  exact ⟨_, rfl⟩

theorem string_mk_ne_empty {l : List Char} (h : l ≠ []) : String.mk l ≠ "" := by
  intro heq
  exact h (congrArg String.data heq)

theorem buildUpiUri_ok (p : Params) (a : UpiAction) (hnd : (keysOf p).Nodup)
    (hv : (validateUpiParams p).isValid = true) :
    buildUpiUri p a = Except.ok ("upi://" ++ a.str ++
      ("?" ++ serializeQuery (canonicalEntries (validateUpiParams p).normalizedParams))) := by
  obtain ⟨tpa, hpa⟩ := valid_norm_pa p hnd hv
  have htpa : tpa ≠ "" := (validate_norm_good p _ (lookupParam_mem hpa)).1
  obtain ⟨rest2, hcons⟩ := canonicalEntries_cons _ hpa htpa
  have hqne : serializeQuery (canonicalEntries (validateUpiParams p).normalizedParams) ≠ "" := by
    apply string_mk_ne_empty
    apply serializeQueryList_ne_nil
    rw [hcons]
    simp
  unfold buildUpiUri
  simp only [hv, Bool.not_true, Bool.false_eq_true, if_false]
  rw [if_neg hqne]

theorem uri_data_shape (a : UpiAction) (q : String) :
    "upi://" ++ a.str ++ ("?" ++ q) =
      String.mk ('u' :: 'p' :: 'i' :: ':' :: '/' :: '/' :: (a.str.data ++ '?' :: q.data)) := by
  apply String.ext
  simp [String.data_append]

theorem roundtrip_core (p : Params) (a : UpiAction) (hnd : (keysOf p).Nodup)
    (hv : (validateUpiParams p).isValid = true) :
    parseUpiUri ("upi://" ++ a.str ++
        ("?" ++ serializeQuery (canonicalEntries (validateUpiParams p).normalizedParams))) =
      Except.ok ⟨a, canonicalEntries (validateUpiParams p).normalizedParams⟩ := by
  have hmgood := validate_norm_good p
  have hmnodup := validate_norm_nodup p
  have hegood : ∀ kt ∈ canonicalEntries (validateUpiParams p).normalizedParams,
      goodEntry kt.1 kt.2 := fun kt hkt => hmgood kt (mem_canonicalEntries hkt)
  have hen := canonical_keys_nodup _ hmnodup
  have hvals : ∀ kt ∈ (validateUpiParams p).normalizedParams, kt.2 ≠ "" :=
    fun kt hkt => (hmgood kt hkt).1
  have hlook := lookup_canonicalEntries _ hmnodup hvals
  obtain ⟨tpa, hpa⟩ := valid_norm_pa p hnd hv
  obtain ⟨tpn, hpn⟩ := valid_norm_pn p hnd hv
  have htpa : tpa ≠ "" := (hmgood _ (lookupParam_mem hpa)).1
  obtain ⟨rest2, hcons⟩ := canonicalEntries_cons _ hpa htpa
  have hene : canonicalEntries (validateUpiParams p).normalizedParams ≠ [] := by
    rw [hcons]; simp
  rw [uri_data_shape]
  unfold parseUpiUri
  rw [show (serializeQuery (canonicalEntries (validateUpiParams p).normalizedParams)).data =
        serializeQueryList (canonicalEntries (validateUpiParams p).normalizedParams) from rfl]
  rw [parseURLModel_canonical a _ (serializeQueryList_no_hash _)]
  have hdq : decodeQueryToParams (String.mk (serializeQueryList
      (canonicalEntries (validateUpiParams p).normalizedParams))) =
      canonicalEntries (validateUpiParams p).normalizedParams := by
    unfold decodeQueryToParams
    rw [show (String.mk (serializeQueryList
          (canonicalEntries (validateUpiParams p).normalizedParams))).data =
        serializeQueryList (canonicalEntries (validateUpiParams p).normalizedParams) from rfl]
    rw [parseQueryList_serialize _ hene]
    exact foldl_insertParam_fresh _ [] (by simpa using hen)
  have hfix := validate_fixpoint (canonicalEntries (validateUpiParams p).normalizedParams)
    hegood hen ⟨tpa, by rw [hlook]; exact hpa⟩ ⟨tpn, by rw [hlook]; exact hpn⟩
    (by rw [hlook, hlook]; exact norm_am_implies_cu p hnd)
  simp only [hdq, hfix]
  cases a
  · simp [UpiAction.str]
  · simp [UpiAction.str]

/-! ### Claim theorems -/

/-- Equality of parameter sets as JS objects: pointwise property lookup
(property order is not observable through object equality). -/
def paramsEq (l1 l2 : Params) : Prop := ∀ k, lookupParam k l1 = lookupParam k l2

/-- C3 as stated is false on the code: here `am` is present with the
non-empty trimmed value `"xx"` and `cu` is absent, yet `validateUpiParams`
does not inject `cu = "INR"` because the invalid `am` never reaches the
normalized map. -/
theorem c3_counterexample :
    lookupParam "am" [("pa", "a@b"), ("pn", "X"), ("am", "xx")] = some "xx" ∧
    jsTrim "xx" ≠ "" ∧
    lookupParam "cu" [("pa", "a@b"), ("pn", "X"), ("am", "xx")] = none ∧
    lookupParam "cu"
      (validateUpiParams [("pa", "a@b"), ("pn", "X"), ("am", "xx")]).normalizedParams = none := by
  refine ⟨rfl, by decide, rfl, by decide⟩

/-- C3 (amended): if `am` is present with a non-empty trimmed value that
passes the `am` rule (length at most 18 and the amount pattern) and `cu`
is absent from the input, `validateUpiParams` injects `cu = "INR"` into
`normalizedParams`. -/
theorem c3_amended (p : Params) (v : String)
    (hnd : (keysOf p).Nodup)
    (ham : lookupParam "am" p = some v)
    (ht : jsTrim v ≠ "")
    (hlen : (jsTrim v).length ≤ 18)
    (hpat : amPatternOk (jsTrim v) = true)
    (hcu : lookupParam "cu" p = none) :
    lookupParam "cu" (validateUpiParams p).normalizedParams = some "INR" := by
  rw [validate_norm_lookup_cu p hnd]
  have hrule : VALIDATION_RULES "am" =
      some { maxLength := some 18, patternOk := some amPatternOk,
             description := "Amount in INR (up to 2 decimal places)" } := rfl
  have hfre : firstRuleError
      { maxLength := some 18, patternOk := some amPatternOk,
        description := "Amount in INR (up to 2 decimal places)" } "am" (jsTrim v) = none := by
    unfold firstRuleError
    simp only []
    rw [if_neg (by simp; omega), if_neg (by simp [hpat])]
    rfl
  have hpass : entryPasses "am" v = true := by
    unfold entryPasses entryRuleError
    rw [if_neg ht, hrule]
    simp [ht, hfre]
  have hbase_am : baseLookup p "am" = some (jsTrim v) := by
    unfold baseLookup
    rw [ham]
    simp [hpass]
  have hbase_cu : baseLookup p "cu" = none := by
    unfold baseLookup
    rw [hcu]
  simp [hbase_am, hbase_cu]

/-- Witness for the amended C3 at a concrete input. -/
theorem c3_amended_witness :
    ((keysOf [("pa", "a@b"), ("pn", "X"), ("am", " 12.50 ")]).Nodup ∧
     lookupParam "am" [("pa", "a@b"), ("pn", "X"), ("am", " 12.50 ")] = some " 12.50 " ∧
     jsTrim " 12.50 " ≠ "" ∧ (jsTrim " 12.50 ").length ≤ 18 ∧
     amPatternOk (jsTrim " 12.50 ") = true ∧
     lookupParam "cu" [("pa", "a@b"), ("pn", "X"), ("am", " 12.50 ")] = none) ∧
    lookupParam "cu"
      (validateUpiParams [("pa", "a@b"), ("pn", "X"), ("am", " 12.50 ")]).normalizedParams =
      some "INR" :=
  ⟨⟨by decide, by decide, by decide, by decide, by decide, by decide⟩,
   c3_amended [("pa", "a@b"), ("pn", "X"), ("am", " 12.50 ")] " 12.50 "
     (by decide) (by decide) (by decide) (by decide) (by decide) (by decide)⟩

/-- C4 as stated is false on the code: the invalid `cu = "USD"` produces
the allowed-values error, yet `cu` is NOT excluded from `normalizedParams`
— the later default-currency step injects `cu = "INR"` because the valid
`am` is present and the failed `cu` left the map unset. -/
theorem c4_counterexample :
    (validateUpiParams [("pa", "a@b"), ("pn", "X"), ("am", "5"), ("cu", "USD")]).errors =
      ["cu: must be one of INR"] ∧
    lookupParam "cu"
      (validateUpiParams [("pa", "a@b"), ("pn", "X"), ("am", "5"), ("cu", "USD")]).normalizedParams =
      some "INR" := by
  refine ⟨by decide, by decide⟩

/-- C4 (amended): the per-key behavior of `validateUpiParams`.  The error
list is the two required-field checks followed by exactly one message per
offending key, computed by `firstRuleError` in the fixed order max length,
pattern, allowed values (`entryRuleError`); keys with no rule never
contribute an error.  The normalized map agrees pointwise with the
per-key outcome `baseLookup` (failing keys excluded, passing keys mapped
to their trimmed value, unknown keys passed through trimmed) — except for
`cu`, which is additionally set to `"INR"` whenever `am` passed and `cu`
did not make it into the map. -/
theorem c4_amended (p : Params) (hnd : (keysOf p).Nodup) :
    ((validateUpiParams p).errors =
      requiredErrors p ++ p.filterMap (fun kv => entryRuleError kv.1 kv.2)) ∧
    (∀ k, k ≠ "cu" →
      lookupParam k (validateUpiParams p).normalizedParams = baseLookup p k) ∧
    (lookupParam "cu" (validateUpiParams p).normalizedParams =
      (if (baseLookup p "am").isSome && (baseLookup p "cu").isNone then some "INR"
       else baseLookup p "cu")) :=
  ⟨validate_errors p, fun k hk => validate_norm_lookup p hnd k hk, validate_norm_lookup_cu p hnd⟩

/-- Witness for the amended C4 at a concrete input. -/
theorem c4_amended_witness :
    (keysOf [("pa", "a@b"), ("pn", "X"), ("tr", "bad ref"), ("zz", " z ")]).Nodup ∧
    ((validateUpiParams [("pa", "a@b"), ("pn", "X"), ("tr", "bad ref"), ("zz", " z ")]).errors =
      requiredErrors [("pa", "a@b"), ("pn", "X"), ("tr", "bad ref"), ("zz", " z ")] ++
        ([("pa", "a@b"), ("pn", "X"), ("tr", "bad ref"), ("zz", " z ")] : Params).filterMap
          (fun kv => entryRuleError kv.1 kv.2)) :=
  ⟨by decide,
   (c4_amended [("pa", "a@b"), ("pn", "X"), ("tr", "bad ref"), ("zz", " z ")] (by decide)).1⟩

/-- C6: `buildUpiUri` throws exactly when validation fails, carrying the
comma-joined error messages; on success it returns a URI.  Validation
itself is a total function whose verdict is just emptiness of its error
list (it reports rather than throws, and its `normalizedParams` field is
always populated). -/
theorem c6_throw_iff (p : Params) (a : UpiAction) :
    ((validateUpiParams p).isValid = false →
      buildUpiUri p a = Except.error
        ("Invalid UPI parameters: " ++ String.intercalate ", " (validateUpiParams p).errors)) ∧
    ((validateUpiParams p).isValid = true → ∃ s, buildUpiUri p a = Except.ok s) ∧
    ((validateUpiParams p).isValid = (validateUpiParams p).errors.isEmpty) := by
  refine ⟨?_, ?_, validate_isValid p⟩
  · intro hv
    unfold buildUpiUri
    simp [hv]
  · intro hv
    refine ⟨"upi://" ++ a.str ++
      (if serializeQuery (canonicalEntries (validateUpiParams p).normalizedParams) = "" then ""
       else "?" ++ serializeQuery (canonicalEntries (validateUpiParams p).normalizedParams)), ?_⟩
    unfold buildUpiUri
    simp [hv]

/-- Witness for C6 at a concrete invalid input. -/
theorem c6_throw_iff_witness :
    (validateUpiParams [("pa", "bad")] ).isValid = false ∧
    buildUpiUri [("pa", "bad")] UpiAction.pay = Except.error
      ("Invalid UPI parameters: " ++
        String.intercalate ", " (validateUpiParams [("pa", "bad")]).errors) :=
  ⟨by decide, (c6_throw_iff [("pa", "bad")] UpiAction.pay).1 (by decide)⟩

/-- C9 as stated is false on the code: this user-agent string is
classified as iOS by `detectPlatform` (it contains `iphone`), yet
`supportsIntentUrls` returns true because the string also contains
`android` and `chrome` — the function has no iOS exclusion. -/
theorem c9_counterexample :
    detectPlatform (some "iphone android chrome") = Platform.ios ∧
    supportsIntentUrls (some "iphone android chrome") = true := by
  refine ⟨by decide, by decide⟩

/-- C9 (amended): for every user agent classified as iOS that does not
also contain the substring `android` (true of any actual iOS agent),
`supportsIntentUrls` is false regardless of browser tokens; it is also
false when no user agent is available. -/
theorem c9_amended :
    (∀ ua, detectPlatform (some ua) = Platform.ios →
      containsSeq (lowerStr ua) "android" = false →
      supportsIntentUrls (some ua) = false) ∧
    supportsIntentUrls none = false := by
  refine ⟨?_, rfl⟩
  intro ua _ hand
  unfold supportsIntentUrls
  simp [hand]

/-- Witness for the amended C9 at a concrete iOS user agent with browser
tokens present. -/
theorem c9_amended_witness :
    (detectPlatform (some "Mozilla (iPhone) CriOS Chrome") = Platform.ios ∧
     containsSeq (lowerStr "Mozilla (iPhone) CriOS Chrome") "android" = false) ∧
    supportsIntentUrls (some "Mozilla (iPhone) CriOS Chrome") = false :=
  ⟨⟨by decide, by decide⟩,
   c9_amended.1 "Mozilla (iPhone) CriOS Chrome" (by decide) (by decide)⟩

/-- C1: for every parameter set that validates and every action,
`parseUpiUri (buildUpiUri p a)` succeeds, its action is `a`, and its
parameter object equals `validateUpiParams(p).normalizedParams` (equality
of JS objects, i.e. pointwise lookup).  The input carries the JS-object
invariant that its keys are distinct. -/
theorem c1_round_trip (p : Params) (a : UpiAction)
    (hnd : (keysOf p).Nodup)
    (hv : (validateUpiParams p).isValid = true) :
    ∃ u, buildUpiUri p a = Except.ok u ∧
      ∃ r, parseUpiUri u = Except.ok r ∧ r.action = a ∧
        paramsEq r.params (validateUpiParams p).normalizedParams := by
  refine ⟨_, buildUpiUri_ok p a hnd hv,
    ⟨a, canonicalEntries (validateUpiParams p).normalizedParams⟩,
    roundtrip_core p a hnd hv, rfl, ?_⟩
  intro k
  exact lookup_canonicalEntries _ (validate_norm_nodup p)
    (fun kt hkt => (validate_norm_good p kt hkt).1) k

/-- Witness for C1 at a concrete parameter set (with an amount triggering
the currency injection, a value needing trimming and encoding, and an
unrecognized pass-through key), action mandate. -/
theorem c1_round_trip_witness :
    ((keysOf [("pa", "test@upi"), ("pn", " Test User "), ("am", "100"), ("xk", "a+b c")]).Nodup ∧
     (validateUpiParams
       [("pa", "test@upi"), ("pn", " Test User "), ("am", "100"), ("xk", "a+b c")]).isValid = true) ∧
    (∃ u, buildUpiUri
        [("pa", "test@upi"), ("pn", " Test User "), ("am", "100"), ("xk", "a+b c")]
        UpiAction.mandate = Except.ok u ∧
      ∃ r, parseUpiUri u = Except.ok r ∧ r.action = UpiAction.mandate ∧
        paramsEq r.params (validateUpiParams
          [("pa", "test@upi"), ("pn", " Test User "), ("am", "100"), ("xk", "a+b c")]).normalizedParams) :=
  ⟨⟨by decide, by decide⟩,
   c1_round_trip [("pa", "test@upi"), ("pn", " Test User "), ("am", "100"), ("xk", "a+b c")]
     UpiAction.mandate (by decide) (by decide)⟩

theorem c5_pair_norm (a b : String)
    (hv : (validateUpiParams [("pa", a), ("pn", b)]).isValid = true) :
    (validateUpiParams [("pa", a), ("pn", b)]).normalizedParams =
      [("pa", jsTrim a), ("pn", jsTrim b)] := by
  obtain ⟨⟨va, hva, hta⟩, ⟨vb, hvb, htb⟩⟩ :=
    valid_req_lookup _ (valid_parts _ hv).1
  have hva2 : va = a := by
    have h0 : lookupParam "pa" [("pa", a), ("pn", b)] = some a := rfl
    rw [h0] at hva
    exact (Option.some_inj.mp hva).symm
  have hvb2 : vb = b := by
    have h0 : lookupParam "pn" [("pa", a), ("pn", b)] = some b := rfl
    rw [h0] at hvb
    exact (Option.some_inj.mp hvb).symm
  subst hva2
  subst hvb2
  have hane : va ≠ "" := fun h => hta (by rw [h]; rfl)
  have hbne : vb ≠ "" := fun h => htb (by rw [h]; rfl)
  have hea : entryRuleError "pa" va = none :=
    (valid_parts _ hv).2 ("pa", va) (by simp)
  have heb : entryRuleError "pn" vb = none :=
    (valid_parts _ hv).2 ("pn", vb) (by simp)
  have hfa : firstRuleError
      { required := true, maxLength := some 255, patternOk := some paPatternOk,
        description := "Valid VPA format (user@psp)" } "pa" (jsTrim va) = none := by
    have h2 := hea
    unfold entryRuleError at h2
    rw [if_neg hta, show VALIDATION_RULES "pa" = some
      { required := true, maxLength := some 255, patternOk := some paPatternOk,
        description := "Valid VPA format (user@psp)" } from rfl] at h2
    exact h2
  have hfb : firstRuleError
      { required := true, maxLength := some 99,
        description := "Payee name" } "pn" (jsTrim vb) = none := by
    have h2 := heb
    unfold entryRuleError at h2
    rw [if_neg htb, show VALIDATION_RULES "pn" = some
      { required := true, maxLength := some 99,
        description := "Payee name" } from rfl] at h2
    exact h2
  have hloop : validateLoop [("pa", va), ("pn", vb)]
      (requiredErrors [("pa", va), ("pn", vb)]) [] =
      (requiredErrors [("pa", va), ("pn", vb)], [("pa", jsTrim va), ("pn", jsTrim vb)]) := by
    rw [validateLoop_cons_pass_rule _ _ _ hane hta (show VALIDATION_RULES "pa" = some
      { required := true, maxLength := some 255, patternOk := some paPatternOk,
        description := "Valid VPA format (user@psp)" } from rfl) hfa]
    rw [validateLoop_cons_pass_rule _ _ _ hbne htb (show VALIDATION_RULES "pn" = some
      { required := true, maxLength := some 99,
        description := "Payee name" } from rfl) hfb]
    rw [show validateLoop [] (requiredErrors [("pa", va), ("pn", vb)])
          (insertParam (insertParam [] "pa" (jsTrim va)) "pn" (jsTrim vb)) =
        (requiredErrors [("pa", va), ("pn", vb)],
         insertParam (insertParam [] "pa" (jsTrim va)) "pn" (jsTrim vb)) from rfl]
    rfl
  unfold validateUpiParams
  rw [hloop]
  simp only []
  rw [show truthyAt [("pa", jsTrim va), ("pn", jsTrim vb)] "am" = false from rfl]
  rfl

theorem c5_pair_canonical (ta tb : String) (hta : ta ≠ "") (htb : tb ≠ "") :
    canonicalEntries [("pa", ta), ("pn", tb)] = [("pa", ta), ("pn", tb)] := by
  unfold canonicalEntries orderedKeys
  simp +decide [lookupParam, hta, htb, List.filterMap_cons, List.filter_cons]

theorem c5_pair_serialize (ta tb : String) :
    serializeQueryList [("pa", ta), ("pn", tb)] =
      ('p' :: 'a' :: '=' :: formEncodeList ta.data) ++
        '&' :: ('p' :: 'n' :: '=' :: formEncodeList tb.data) := by
  show joinWithAmp [formEncodeList "pa".data ++ '=' :: formEncodeList ta.data,
                    formEncodeList "pn".data ++ '=' :: formEncodeList tb.data] = _
  rw [show formEncodeList "pa".data = ['p', 'a'] from by decide]
  rw [show formEncodeList "pn".data = ['p', 'n'] from by decide]
  rfl

theorem c5_pair_exact (a b : String)
    (hv : (validateUpiParams [("pa", a), ("pn", b)]).isValid = true) :
    buildUpiUri [("pa", a), ("pn", b)] UpiAction.pay =
      Except.ok ("upi://pay?pa=" ++ formEncode (jsTrim a) ++ "&pn=" ++ formEncode (jsTrim b)) := by
  have hnd : (keysOf [("pa", a), ("pn", b)]).Nodup := by
    show (["pa", "pn"] : List String).Nodup
    decide
  rw [buildUpiUri_ok _ UpiAction.pay hnd hv]
  congr 1
  rw [c5_pair_norm a b hv]
  obtain ⟨⟨va, hva, hta⟩, ⟨vb, hvb, htb⟩⟩ := valid_req_lookup _ (valid_parts _ hv).1
  have hva2 : va = a := by
    have h0 : lookupParam "pa" [("pa", a), ("pn", b)] = some a := rfl
    rw [h0] at hva
    exact (Option.some_inj.mp hva).symm
  have hvb2 : vb = b := by
    have h0 : lookupParam "pn" [("pa", a), ("pn", b)] = some b := rfl
    rw [h0] at hvb
    exact (Option.some_inj.mp hvb).symm
  subst hva2
  subst hvb2
  have htane : jsTrim va ≠ "" := hta
  have htbne : jsTrim vb ≠ "" := htb
  rw [c5_pair_canonical _ _ htane htbne]
  apply String.ext
  rw [show serializeQuery [("pa", jsTrim va), ("pn", jsTrim vb)] =
      String.mk (serializeQueryList [("pa", jsTrim va), ("pn", jsTrim vb)]) from rfl]
  rw [c5_pair_serialize]
  simp [String.data_append]
  rfl

/-- C5: `buildUpiUri` serializes the validated parameters as the
recognized keys in the fixed order of `orderedKeys`
(`[pa, pn, am, cu, tr, tn, url, mode, orgid, mc, tid, sign]`), skipping
absent/empty values, followed by the remaining keys (`canonicalEntries`);
in particular a valid set holding only `pa` and `pn` yields exactly
`upi://pay?pa=<enc(pa)>&pn=<enc(pn)>` with no `cu` emitted. -/
theorem c5_emission_order :
    (∀ (p : Params) (a : UpiAction), (keysOf p).Nodup →
      (validateUpiParams p).isValid = true →
      buildUpiUri p a = Except.ok ("upi://" ++ a.str ++
        ("?" ++ serializeQuery (canonicalEntries (validateUpiParams p).normalizedParams)))) ∧
    (∀ a b : String, (validateUpiParams [("pa", a), ("pn", b)]).isValid = true →
      buildUpiUri [("pa", a), ("pn", b)] UpiAction.pay =
        Except.ok ("upi://pay?pa=" ++ formEncode (jsTrim a) ++ "&pn=" ++ formEncode (jsTrim b))) :=
  ⟨fun p a hnd hv => buildUpiUri_ok p a hnd hv, fun a b hv => c5_pair_exact a b hv⟩

/-- Witness for C5 at a concrete pa/pn pair. -/
theorem c5_emission_order_witness :
    ((validateUpiParams [("pa", "x@y"), ("pn", "Jo Do")]).isValid = true) ∧
    buildUpiUri [("pa", "x@y"), ("pn", "Jo Do")] UpiAction.pay =
      Except.ok ("upi://pay?pa=" ++ formEncode (jsTrim "x@y") ++ "&pn=" ++ formEncode (jsTrim "Jo Do")) :=
  ⟨by decide, c5_emission_order.2 "x@y" "Jo Do" (by decide)⟩


/-- Reduction of `parseUpiUri` at a successfully parsed URL. -/
theorem parseUpiUri_some (u : String) (parts : URLParts)
    (hm : parseURLModel u = some parts) :
    parseUpiUri u =
      (if parts.scheme != "upi" then
        Except.error "Invalid UPI URI: must start with upi://"
      else if parts.host != "pay" && parts.host != "mandate" then
        Except.error "Invalid UPI action: must be \"pay\" or \"mandate\""
      else if !(validateUpiParams (decodeQueryToParams parts.query)).isValid then
        Except.error ("Invalid UPI parameters: " ++
          String.intercalate ", " (validateUpiParams (decodeQueryToParams parts.query)).errors)
      else
        Except.ok ⟨if parts.host = "pay" then UpiAction.pay else UpiAction.mandate,
                   (validateUpiParams (decodeQueryToParams parts.query)).normalizedParams⟩) := by
  unfold parseUpiUri
  rw [hm]

/-- C7: `parseUpiUri` succeeds exactly on URL-parsable inputs of scheme
`upi`, host `pay`/`mandate`, whose decoded query passes validation; its
result re-reports the host as the action and the validator-normalized
params; each failure mode throws the stated message. -/
theorem c7_parse_contract :
    (∀ u r, parseUpiUri u = Except.ok r →
      ∃ parts, parseURLModel u = some parts ∧ parts.scheme = "upi" ∧
        (parts.host = "pay" ∨ parts.host = "mandate") ∧
        (validateUpiParams (decodeQueryToParams parts.query)).isValid = true ∧
        r.action.str = parts.host ∧
        r.params = (validateUpiParams (decodeQueryToParams parts.query)).normalizedParams) ∧
    (∀ u, parseURLModel u = none → parseUpiUri u = Except.error "Invalid URL") ∧
    (∀ u parts, parseURLModel u = some parts → parts.scheme ≠ "upi" →
      parseUpiUri u = Except.error "Invalid UPI URI: must start with upi://") ∧
    (∀ u parts, parseURLModel u = some parts → parts.scheme = "upi" →
      parts.host ≠ "pay" → parts.host ≠ "mandate" →
      parseUpiUri u = Except.error "Invalid UPI action: must be \"pay\" or \"mandate\"") ∧
    (∀ u parts, parseURLModel u = some parts → parts.scheme = "upi" →
      (parts.host = "pay" ∨ parts.host = "mandate") →
      (validateUpiParams (decodeQueryToParams parts.query)).isValid = false →
      parseUpiUri u = Except.error ("Invalid UPI parameters: " ++
        String.intercalate ", " (validateUpiParams (decodeQueryToParams parts.query)).errors)) := by
  refine ⟨?_, ?_, ?_, ?_, ?_⟩
  · intro u r h
    cases hm : parseURLModel u with
    | none =>
      unfold parseUpiUri at h
      rw [hm] at h
      exact absurd h (by simp)
    | some parts =>
      rw [parseUpiUri_some u parts hm] at h
      refine ⟨parts, rfl, ?_⟩
      by_cases hs : (parts.scheme != "upi") = true
      · rw [if_pos hs] at h
        exact absurd h (by simp)
      · have hseq : parts.scheme = "upi" := by
          simpa [bne_iff_ne] using hs
        rw [if_neg hs] at h
        by_cases hh : (parts.host != "pay" && parts.host != "mandate") = true
        · rw [if_pos hh] at h
          exact absurd h (by simp)
        · have hhor : parts.host = "pay" ∨ parts.host = "mandate" := by
            rcases Bool.and_eq_false_iff.mp (Bool.not_eq_true _ ▸ hh) with h1 | h1
            · left; simpa [bne_iff_ne] using h1
            · right; simpa [bne_iff_ne] using h1
          rw [if_neg hh] at h
          by_cases hv : (validateUpiParams (decodeQueryToParams parts.query)).isValid = true
          · rw [if_neg (by simp [hv])] at h
            obtain rfl := (Except.ok.inj h).symm
            refine ⟨hseq, hhor, hv, ?_, rfl⟩
            rcases hhor with hp | hp
            · simp [hp, UpiAction.str]
            · rw [hp]
              simp [UpiAction.str]
          · rw [if_pos (by simp [Bool.not_eq_true _ ▸ hv])] at h
            exact absurd h (by simp)
  · intro u hm
    unfold parseUpiUri
    rw [hm]
  · intro u parts hm hs
    rw [parseUpiUri_some u parts hm]
    rw [if_pos (bne_iff_ne.mpr hs)]
  · intro u parts hm hs hp hmd
    rw [parseUpiUri_some u parts hm]
    rw [if_neg (by simp [hs])]
    rw [if_pos (show (parts.host != "pay" && parts.host != "mandate") = true by
      simp only [Bool.and_eq_true, bne_iff_ne]
      exact ⟨hp, hmd⟩)]
  · intro u parts hm hs hor hv
    rw [parseUpiUri_some u parts hm]
    rw [if_neg (by simp [hs])]
    rw [if_neg (by rcases hor with h | h <;> simp [h])]
    rw [if_pos (by simp [hv])]


/-- Witness for C7 at a concrete non-upi URL. -/
theorem c7_parse_contract_witness :
    parseUpiUri "http://ex?q" =
      Except.error "Invalid UPI URI: must start with upi://" :=
  c7_parse_contract.2.2.1 "http://ex?q" (URLParts.mk "http" "ex" "q") (by rfl) (by decide)


/-- Reduction of `extractQueryFromUri` at a parsable URI. -/
theorem extractQueryFromUri_ok (u : String) (r : ParsedUpi)
    (h : parseUpiUri u = Except.ok r) :
    extractQueryFromUri u =
      Except.ok (serializeQuery (r.params.filter (fun kv => kv.2 != ""))) := by
  unfold extractQueryFromUri
  rw [h]

/-- Reduction of `buildAppLink` on android given a non-empty `upiUri` whose
query extraction succeeds. -/
theorem buildAppLink_uri_android (appId : UpiAppId) (u : String) (hu : u ≠ "")
    (action : UpiAction) (fallbackUrl : Option String) (includeFallback : Bool)
    (app : UpiApp) (happ : getApp appId = some app)
    (q : String) (hq : extractQueryFromUri u = Except.ok q) :
    buildAppLink ⟨appId, some u, none, Platform.android, action, fallbackUrl, includeFallback⟩ =
      Except.ok ⟨buildAndroidIntentUrl appId q action
          (if includeFallback then orFalsy fallbackUrl (getStoreUrl appId Platform.android)
           else none),
        (if includeFallback then orFalsy fallbackUrl (getStoreUrl appId Platform.android)
         else none),
        appId, app.label, app.status = VerificationStatus.verified,
        Platform.android, action⟩ := by
  have ht : truthyOptStr (some u) = true := by
    simp [truthyOptStr, bne_iff_ne]
    exact hu
  unfold buildAppLink
  simp only [ht, happ, Bool.not_true, Bool.false_and, Bool.false_eq_true, if_false]
  rw [if_pos (by simp [bne_iff_ne]; exact hu)]
  simp only [hq]

/-- Reduction of `buildAppLink` on iOS given a non-empty `upiUri` whose
query extraction succeeds. -/
theorem buildAppLink_uri_ios (appId : UpiAppId) (u : String) (hu : u ≠ "")
    (action : UpiAction) (fallbackUrl : Option String) (includeFallback : Bool)
    (app : UpiApp) (happ : getApp appId = some app)
    (q : String) (hq : extractQueryFromUri u = Except.ok q) :
    buildAppLink ⟨appId, some u, none, Platform.ios, action, fallbackUrl, includeFallback⟩ =
      Except.ok ⟨buildIosSchemeUrl appId q action,
        orFalsy fallbackUrl (getStoreUrl appId Platform.ios),
        appId, app.label, app.status = VerificationStatus.verified,
        Platform.ios, action⟩ := by
  have ht : truthyOptStr (some u) = true := by
    simp [truthyOptStr, bne_iff_ne]
    exact hu
  unfold buildAppLink
  simp only [ht, happ, Bool.not_true, Bool.false_and, Bool.false_eq_true, if_false]
  rw [if_pos (by simp [bne_iff_ne]; exact hu)]
  simp only [hq]


/-- C2 as stated is false on the code: `buildAppLink` re-serializes the
parsed query and rebuilds the prefix from `options.action` (default
`pay`), so a valid mandate URI comes back as a `pay` URI. -/
theorem c2_counterexample :
    (∃ r, parseUpiUri "upi://mandate?pa=a%40b&pn=X" = Except.ok r) ∧
    (∃ link, buildAppLink ⟨UpiAppId.generic, some "upi://mandate?pa=a%40b&pn=X",
        none, Platform.android, UpiAction.pay, none, true⟩ = Except.ok link ∧
      link.url = "upi://pay?pa=a%40b&pn=X" ∧
      link.url ≠ "upi://mandate?pa=a%40b&pn=X") := by
  have h2 : parseUpiUri "upi://mandate?pa=a%40b&pn=X" =
      Except.ok ⟨UpiAction.mandate, [("pa", "a@b"), ("pn", "X")]⟩ :=
    roundtrip_core [("pa", "a@b"), ("pn", "X")] UpiAction.mandate (by decide) (by decide)
  have hq : extractQueryFromUri "upi://mandate?pa=a%40b&pn=X" =
      Except.ok "pa=a%40b&pn=X" := by
    rw [extractQueryFromUri_ok _ _ h2]
    rfl
  have h4 := buildAppLink_uri_android UpiAppId.generic "upi://mandate?pa=a%40b&pn=X"
    (by decide) UpiAction.pay none true _ rfl _ hq
  exact ⟨⟨_, h2⟩, _, h4, by decide, by decide⟩

/-- C2 (amended): on URIs produced by `buildUpiUri` with the default `pay`
action, the generic android link is the original string unchanged. -/
theorem c2_amended (p : Params) (u : String) (hnd : (keysOf p).Nodup)
    (hv : (validateUpiParams p).isValid = true)
    (hu : buildUpiUri p UpiAction.pay = Except.ok u) :
    ∃ link, buildAppLink ⟨UpiAppId.generic, some u, none,
        Platform.android, UpiAction.pay, none, true⟩ = Except.ok link ∧ link.url = u := by
  have hb := buildUpiUri_ok p UpiAction.pay hnd hv
  rw [hu] at hb
  obtain rfl := Except.ok.inj hb
  have h2 : parseUpiUri ("upi://" ++ UpiAction.pay.str ++
      ("?" ++ serializeQuery (canonicalEntries (validateUpiParams p).normalizedParams))) =
      Except.ok ⟨UpiAction.pay, canonicalEntries (validateUpiParams p).normalizedParams⟩ :=
    roundtrip_core p UpiAction.pay hnd hv
  have hfil : (canonicalEntries (validateUpiParams p).normalizedParams).filter
      (fun kv => kv.2 != "") = canonicalEntries (validateUpiParams p).normalizedParams := by
    apply List.filter_eq_self.mpr
    intro kv hkv
    have hne := (validate_norm_good p kv (mem_canonicalEntries hkv)).1
    simp [bne_iff_ne]
    exact hne
  have hq : extractQueryFromUri ("upi://" ++ UpiAction.pay.str ++
      ("?" ++ serializeQuery (canonicalEntries (validateUpiParams p).normalizedParams))) =
      Except.ok (serializeQuery (canonicalEntries (validateUpiParams p).normalizedParams)) := by
    rw [extractQueryFromUri_ok _ _ h2]
    simp only [hfil]
  have hune : ("upi://" ++ UpiAction.pay.str ++
      ("?" ++ serializeQuery (canonicalEntries (validateUpiParams p).normalizedParams))) ≠ "" := by
    intro h
    have hd := congrArg String.data h
    simp [String.data_append] at hd
  have h4 := buildAppLink_uri_android UpiAppId.generic _ hune UpiAction.pay none true _ rfl _ hq
  refine ⟨_, h4, ?_⟩
  show "upi://" ++ UpiAction.pay.str ++ "?" ++
      serializeQuery (canonicalEntries (validateUpiParams p).normalizedParams) =
    "upi://" ++ UpiAction.pay.str ++
      ("?" ++ serializeQuery (canonicalEntries (validateUpiParams p).normalizedParams))
  exact String.append_assoc _ _ _

/-- Witness for the amended C2 at a concrete parameter set. -/
theorem c2_amended_witness :
    ((keysOf [("pa", "a@b"), ("pn", "X")]).Nodup ∧
     (validateUpiParams [("pa", "a@b"), ("pn", "X")]).isValid = true ∧
     buildUpiUri [("pa", "a@b"), ("pn", "X")] UpiAction.pay =
       Except.ok "upi://pay?pa=a%40b&pn=X") ∧
    ∃ link, buildAppLink ⟨UpiAppId.generic, some "upi://pay?pa=a%40b&pn=X",
        none, Platform.android, UpiAction.pay, none, true⟩ = Except.ok link ∧
      link.url = "upi://pay?pa=a%40b&pn=X" :=
  ⟨⟨by decide, by decide, by rfl⟩,
   c2_amended [("pa", "a@b"), ("pn", "X")] "upi://pay?pa=a%40b&pn=X"
     (by decide) (by decide) (by rfl)⟩


/-- Every member of the closed app-id enum is present in the registry. -/
theorem getApp_isSome (appId : UpiAppId) : ∃ app, getApp appId = some app := by
  cases appId <;> exact ⟨_, rfl⟩

/-- A string starting with one character differs from a string starting
with another. -/
theorem append_head_ne (p t s : String) (c d : Char) (rp rs : List Char)
    (hp : p.data = c :: rp) (hs : s.data = d :: rs) (hcd : c ≠ d) : p ++ t ≠ s := by
  intro h
  have hdata := congrArg String.data h
  rw [String.data_append, hp, hs] at hdata
  simp only [List.cons_append, List.cons.injEq] at hdata
  exact hcd hdata.1

/-- Every `buildUpiUri` error message carries the invalid-parameters prefix. -/
theorem buildUpiUri_error_shape (ps : Params) (a : UpiAction) (e : String)
    (h : buildUpiUri ps a = Except.error e) :
    ∃ t, e = "Invalid UPI parameters: " ++ t := by
  unfold buildUpiUri at h
  by_cases hv : (validateUpiParams ps).isValid = true
  · simp [hv] at h
  · rw [if_pos (by simp [Bool.not_eq_true _ ▸ hv])] at h
    exact ⟨_, (Except.error.inj h).symm⟩

/-- Every `extractQueryFromUri` error message carries the invalid-URI prefix. -/
theorem extractQueryFromUri_error_shape (u e : String)
    (h : extractQueryFromUri u = Except.error e) :
    ∃ t, e = "Invalid UPI URI: " ++ t := by
  unfold extractQueryFromUri at h
  cases hp : parseUpiUri u with
  | error e2 =>
    simp only [hp] at h
    exact ⟨e2, (Except.error.inj h).symm⟩
  | ok r =>
    simp only [hp] at h
    exact absurd h (by simp)

/-- C10 as stated is false on the code: the base-URI choice tests JS
truthiness, so a supplied-but-empty `upiUri` falls through to `upiParams`
(not ignored), and with `upiParams` also absent the argument error fires
although `upiUri` was supplied. -/
theorem c10_counterexample :
    (∃ link, buildAppLink ⟨UpiAppId.generic, some "", some [("pa", "a@b"), ("pn", "X")],
        Platform.android, UpiAction.pay, none, true⟩ = Except.ok link ∧
      link.url = "upi://pay?pa=a%40b&pn=X") ∧
    buildAppLink ⟨UpiAppId.generic, some "", none,
        Platform.android, UpiAction.pay, none, true⟩ =
      Except.error "Either upiUri or upiParams must be provided" := by
  have h2 : parseUpiUri "upi://pay?pa=a%40b&pn=X" =
      Except.ok ⟨UpiAction.pay, [("pa", "a@b"), ("pn", "X")]⟩ :=
    roundtrip_core [("pa", "a@b"), ("pn", "X")] UpiAction.pay (by decide) (by decide)
  have hq : extractQueryFromUri "upi://pay?pa=a%40b&pn=X" =
      Except.ok "pa=a%40b&pn=X" := by
    rw [extractQueryFromUri_ok _ _ h2]
    rfl
  refine ⟨⟨⟨"upi://pay?pa=a%40b&pn=X", none, UpiAppId.generic, "UPI", true,
      Platform.android, UpiAction.pay⟩, ?_, rfl⟩, rfl⟩
  show (match extractQueryFromUri "upi://pay?pa=a%40b&pn=X" with
        | Except.error e => Except.error e
        | Except.ok q =>
          Except.ok (⟨buildAndroidIntentUrl UpiAppId.generic q UpiAction.pay none, none,
            UpiAppId.generic, "UPI", true, Platform.android, UpiAction.pay⟩ : GeneratedLink)) =
      Except.ok ⟨"upi://pay?pa=a%40b&pn=X", none, UpiAppId.generic, "UPI", true,
        Platform.android, UpiAction.pay⟩
  rw [hq]
  rfl

/-- C10 (amended): a truthy (non-empty) `upiUri` makes the result identical
to the call with `upiParams` omitted, and the argument error is raised
exactly when `upiUri` is JS-falsy (absent or empty) and `upiParams` is
absent. -/
theorem c10_amended (opts : AppLinkOptions) :
    (∀ s, opts.upiUri = some s → s ≠ "" →
      buildAppLink opts =
        buildAppLink ⟨opts.appId, opts.upiUri, none, opts.platform,
                      opts.action, opts.fallbackUrl, opts.includeFallback⟩) ∧
    (buildAppLink opts = Except.error "Either upiUri or upiParams must be provided" ↔
      truthyOptStr opts.upiUri = false ∧ opts.upiParams = none) := by
  constructor
  · intro s hupi hs
    have hbne : (s != "") = true := bne_iff_ne.mpr hs
    unfold buildAppLink
    simp [hupi, truthyOptStr, hbne]
  · constructor
    · intro h
      by_cases hc : (!truthyOptStr opts.upiUri && opts.upiParams.isNone) = true
      · simp only [Bool.and_eq_true, Bool.not_eq_true'] at hc
        exact ⟨hc.1, Option.isNone_iff_eq_none.mp hc.2⟩
      · exfalso
        unfold buildAppLink at h
        rw [if_neg hc] at h
        obtain ⟨app, happ⟩ := getApp_isSome opts.appId
        rw [happ] at h
        have hbase : ∀ u : String,
            (match extractQueryFromUri u with
             | Except.error e => Except.error e
             | Except.ok upiQuery =>
               match opts.platform with
               | Platform.android =>
                 Except.ok (⟨buildAndroidIntentUrl opts.appId upiQuery opts.action
                     (if opts.includeFallback then
                       orFalsy opts.fallbackUrl (getStoreUrl opts.appId Platform.android)
                      else none),
                   (if opts.includeFallback then
                     orFalsy opts.fallbackUrl (getStoreUrl opts.appId Platform.android)
                    else none),
                   opts.appId, app.label, app.status = VerificationStatus.verified,
                   Platform.android, opts.action⟩ : GeneratedLink)
               | Platform.ios =>
                 Except.ok (⟨buildIosSchemeUrl opts.appId upiQuery opts.action,
                   orFalsy opts.fallbackUrl (getStoreUrl opts.appId Platform.ios),
                   opts.appId, app.label, app.status = VerificationStatus.verified,
                   Platform.ios, opts.action⟩ : GeneratedLink)) ≠
            Except.error "Either upiUri or upiParams must be provided" := by
          intro u hu
          cases hx : extractQueryFromUri u with
          | error e2 =>
            simp only [hx] at hu
            obtain ⟨t, ht⟩ := extractQueryFromUri_error_shape u e2 hx
            exact append_head_ne "Invalid UPI URI: " t
              "Either upiUri or upiParams must be provided" 'I' 'E' _ _ rfl rfl
              (by decide) (ht ▸ Except.error.inj hu)
          | ok q =>
            simp only [hx] at hu
            cases hplat : opts.platform <;> simp [hplat] at hu
        have hparams : ∀ ps : Params, opts.upiParams = some ps → False := by
          intro ps hop
          cases hbu : buildUpiUri ps opts.action with
          | error e2 =>
            obtain ⟨t, ht⟩ := buildUpiUri_error_shape ps opts.action e2 hbu
            cases hou : opts.upiUri with
            | none =>
              simp only [hou, hop, hbu] at h
              exact append_head_ne "Invalid UPI parameters: " t
                "Either upiUri or upiParams must be provided" 'I' 'E' _ _ rfl rfl
                (by decide) (ht ▸ Except.error.inj h)
            | some s =>
              by_cases hs : s = ""
              · subst hs
                simp only [hou, hop, hbu, bne_self_eq_false, Bool.false_eq_true,
                  if_false] at h
                exact append_head_ne "Invalid UPI parameters: " t
                  "Either upiUri or upiParams must be provided" 'I' 'E' _ _ rfl rfl
                  (by decide) (ht ▸ Except.error.inj h)
              · have hbne : (s != "") = true := bne_iff_ne.mpr hs
                simp only [hou, hbne, if_true] at h
                exact hbase s h
          | ok u =>
            cases hou : opts.upiUri with
            | none =>
              simp only [hou, hop, hbu] at h
              exact hbase u h
            | some s =>
              by_cases hs : s = ""
              · subst hs
                simp only [hou, hop, hbu, bne_self_eq_false, Bool.false_eq_true,
                  if_false] at h
                exact hbase u h
              · have hbne : (s != "") = true := bne_iff_ne.mpr hs
                simp only [hou, hbne, if_true] at h
                exact hbase s h
        cases hou : opts.upiUri with
        | none =>
          cases hop : opts.upiParams with
          | none =>
            apply hc
            simp [hou, hop, truthyOptStr]
          | some ps => exact hparams ps hop
        | some s =>
          cases hop : opts.upiParams with
          | some ps => exact hparams ps hop
          | none =>
            by_cases hs : s = ""
            · apply hc
              simp [hou, hop, hs, truthyOptStr]
            · have hbne : (s != "") = true := bne_iff_ne.mpr hs
              simp only [hou, hop, hbne, if_true] at h
              exact hbase s h
    · rintro ⟨h1, h2⟩
      unfold buildAppLink
      rw [if_pos (by simp [h1, h2])]

/-- Witness for the amended C10: with a truthy `upiUri` and `upiParams`
both supplied, the result equals the `upiParams`-omitted call. -/
theorem c10_amended_witness :
    buildAppLink ⟨UpiAppId.generic, some "upi://pay?pa=a%40b&pn=X",
        some [("pa", "a@b"), ("pn", "X")], Platform.android, UpiAction.pay, none, true⟩ =
      buildAppLink ⟨UpiAppId.generic, some "upi://pay?pa=a%40b&pn=X", none,
        Platform.android, UpiAction.pay, none, true⟩ :=
  (c10_amended _).1 "upi://pay?pa=a%40b&pn=X" rfl (by decide)


/-- `buildAndroidIntentUrl` with a packaged app and no resolved fallback:
the bare intent URL terminated by `;end`. -/
theorem buildAndroidIntentUrl_none (appId : UpiAppId) (q : String) (action : UpiAction)
    (app : UpiApp) (happ : getApp appId = some app)
    (pkg : String) (hpkg : app.androidPackage = some pkg) (hpne : pkg ≠ "") :
    buildAndroidIntentUrl appId q action none =
      "intent://" ++ action.str ++ "?" ++ q ++ "#Intent;scheme=upi;package=" ++ pkg ++
      ";end" := by
  unfold buildAndroidIntentUrl
  rw [happ]
  simp only [hpkg]
  rw [if_neg hpne]

/-- `buildAndroidIntentUrl` with a packaged app and a non-empty resolved
fallback: the fallback segment precedes `;end`. -/
theorem buildAndroidIntentUrl_some (appId : UpiAppId) (q : String) (action : UpiAction)
    (app : UpiApp) (happ : getApp appId = some app)
    (pkg : String) (hpkg : app.androidPackage = some pkg) (hpne : pkg ≠ "")
    (fb : String) (hfb : fb ≠ "") :
    buildAndroidIntentUrl appId q action (some fb) =
      "intent://" ++ action.str ++ "?" ++ q ++ "#Intent;scheme=upi;package=" ++ pkg ++
      ";S.browser_fallback_url=" ++ encodeURIComponent fb ++ ";end" := by
  unfold buildAndroidIntentUrl
  rw [happ]
  simp only [hpkg]
  rw [if_neg hpne, if_neg hfb]

/-- C8: on android with a packaged app the link is the intent URL with the
`;S.browser_fallback_url=` segment exactly when a fallback resolves, the
fallback resolving only under `includeFallback` and preferring the caller
URL over the Play-store URL; on iOS the fallback always resolves,
independent of `includeFallback`. -/
theorem c8_intent_format (appId : UpiAppId) (u : String) (hu : u ≠ "")
    (action : UpiAction) (fallbackUrl : Option String) (includeFallback : Bool)
    (app : UpiApp) (happ : getApp appId = some app)
    (pkg : String) (hpkg : app.androidPackage = some pkg) (hpne : pkg ≠ "")
    (q : String) (hq : extractQueryFromUri u = Except.ok q) :
    (∃ link, buildAppLink ⟨appId, some u, none, Platform.android, action,
        fallbackUrl, includeFallback⟩ = Except.ok link ∧
      link.fallbackUrl = (if includeFallback then
        orFalsy fallbackUrl (getStoreUrl appId Platform.android) else none) ∧
      (link.fallbackUrl = none →
        link.url = "intent://" ++ action.str ++ "?" ++ q ++
          "#Intent;scheme=upi;package=" ++ pkg ++ ";end") ∧
      (∀ fb, link.fallbackUrl = some fb → fb ≠ "" →
        link.url = "intent://" ++ action.str ++ "?" ++ q ++
          "#Intent;scheme=upi;package=" ++ pkg ++
          ";S.browser_fallback_url=" ++ encodeURIComponent fb ++ ";end")) ∧
    (∃ link, buildAppLink ⟨appId, some u, none, Platform.ios, action,
        fallbackUrl, includeFallback⟩ = Except.ok link ∧
      link.fallbackUrl = orFalsy fallbackUrl (getStoreUrl appId Platform.ios)) := by
  have h4 := buildAppLink_uri_android appId u hu action fallbackUrl includeFallback
    app happ q hq
  have h5 := buildAppLink_uri_ios appId u hu action fallbackUrl includeFallback
    app happ q hq
  refine ⟨⟨_, h4, rfl, ?_, ?_⟩, ⟨_, h5, rfl⟩⟩
  · intro hfn
    have h6 : (if includeFallback then
        orFalsy fallbackUrl (getStoreUrl appId Platform.android) else none) = none := hfn
    show buildAndroidIntentUrl appId q action
      (if includeFallback then
        orFalsy fallbackUrl (getStoreUrl appId Platform.android) else none) = _
    rw [h6]
    exact buildAndroidIntentUrl_none appId q action app happ pkg hpkg hpne
  · intro fb hf hfb
    have h6 : (if includeFallback then
        orFalsy fallbackUrl (getStoreUrl appId Platform.android) else none) = some fb := hf
    show buildAndroidIntentUrl appId q action
      (if includeFallback then
        orFalsy fallbackUrl (getStoreUrl appId Platform.android) else none) = _
    rw [h6]
    exact buildAndroidIntentUrl_some appId q action app happ pkg hpkg hpne fb hfb


/-- Witness for C8 at Google Pay with the default fallback resolution. -/
theorem c8_intent_format_witness :
    (∃ link, buildAppLink ⟨UpiAppId.gpay, some "upi://pay?pa=a%40b&pn=X", none,
        Platform.android, UpiAction.pay, none, true⟩ = Except.ok link ∧
      link.fallbackUrl = (if true then
        orFalsy none (getStoreUrl UpiAppId.gpay Platform.android) else none) ∧
      (link.fallbackUrl = none →
        link.url = "intent://" ++ UpiAction.pay.str ++ "?" ++ "pa=a%40b&pn=X" ++
          "#Intent;scheme=upi;package=" ++ "com.google.android.apps.nbu.paisa.user" ++
          ";end") ∧
      (∀ fb, link.fallbackUrl = some fb → fb ≠ "" →
        link.url = "intent://" ++ UpiAction.pay.str ++ "?" ++ "pa=a%40b&pn=X" ++
          "#Intent;scheme=upi;package=" ++ "com.google.android.apps.nbu.paisa.user" ++
          ";S.browser_fallback_url=" ++ encodeURIComponent fb ++ ";end")) ∧
    (∃ link, buildAppLink ⟨UpiAppId.gpay, some "upi://pay?pa=a%40b&pn=X", none,
        Platform.ios, UpiAction.pay, none, true⟩ = Except.ok link ∧
      link.fallbackUrl = orFalsy none (getStoreUrl UpiAppId.gpay Platform.ios)) := by
  have h2 : parseUpiUri "upi://pay?pa=a%40b&pn=X" =
      Except.ok ⟨UpiAction.pay, [("pa", "a@b"), ("pn", "X")]⟩ :=
    roundtrip_core [("pa", "a@b"), ("pn", "X")] UpiAction.pay (by decide) (by decide)
  have hq : extractQueryFromUri "upi://pay?pa=a%40b&pn=X" =
      Except.ok "pa=a%40b&pn=X" := by
    rw [extractQueryFromUri_ok _ _ h2]
    rfl
  exact c8_intent_format UpiAppId.gpay "upi://pay?pa=a%40b&pn=X" (by decide)
    UpiAction.pay none true _ rfl "com.google.android.apps.nbu.paisa.user" rfl
    (by decide) "pa=a%40b&pn=X" hq

end UpiIntent
